import Mathlib

/-!
Verification of the two logic units of the warehouse inward/transfer web
application: the multi-page PDF extraction merge (`mergePageResults` in
`src/app/[company]/inward/new/page.tsx`) and the transfer-in reconciliation
tracker (`src/app/[company]/transfer/transferIn/page.tsx`).

Conventions of the shallow embedding:
  - Optional / nullable JavaScript record fields become `Option` values;
    `none` models both `undefined` and `null`.
  - JavaScript truthiness on optional strings is `strTruthy` (absent and the
    empty string are falsy) and on optional numbers is `numTruthy` (absent
    and `0` are falsy).  Numbers are modelled by `ℚ`.
  - `String.trim` stands for the JavaScript `trim()` (both strip surrounding
    whitespace; the exact whitespace alphabets differ only on exotic code
    points that no claim depends on).
  - `Record<string, number>` and `Record<number, ...>` objects are modelled
    by association lists respectively total functions; an entry that is
    absent and an entry whose value is `false` are observationally equal in
    the source (both falsy), and the source never distinguishes them.
-/

namespace Frontend

/-- JavaScript truthiness of an optional string: `undefined`, `null` and the
empty string are falsy. -/
def strTruthy : Option String → Bool
  | none => false
  | some s => !(s == "")

/-- JavaScript truthiness of an optional number: `undefined`, `null` and `0`
are falsy. -/
def numTruthy : Option ℚ → Bool
  | none => false
  | some q => !(q == 0)

/-- Strip leading and trailing whitespace from a character list. -/
def trimChars (l : List Char) : List Char :=
  ((l.dropWhile Char.isWhitespace).reverse.dropWhile Char.isWhitespace).reverse

/-- The JavaScript `String.prototype.trim()`: surrounding whitespace removed.
Defined structurally on the character list so that concrete executions
reduce inside the kernel. -/
def jsTrim (s : String) : String := ⟨trimChars s.data⟩

namespace Inward

/-- Article line item of an extraction result (`ArticleExtract`, spec data
model).  `mergePageResults` treats articles as opaque values: it only copies
and concatenates article arrays and never reads or writes their fields. -/
structure Article where
  item_description : String
  weight : Option ℚ
  unit_rate : Option ℚ
  total_amount : Option ℚ
deriving DecidableEq

/-- One extracted purchase order (`POExtractResponse` in `@/types/inward`).
The fields are exactly the ones `mergePageResults` reads or writes:
`po_number`, the ten fill fields, and `articles`. -/
structure POExtractResponse where
  po_number : Option String
  supplier_name : Option String
  customer_name : Option String
  source_location : Option String
  destination_location : Option String
  purchased_by : Option String
  currency : Option String
  total_amount : Option ℚ
  tax_amount : Option ℚ
  discount_amount : Option ℚ
  po_quantity : Option ℚ
  articles : Option (List Article)
deriving DecidableEq

/-- A purchase order record with every field absent; used as the junk
default of out-of-range list reads, which the merge never performs on the
executions the theorems describe. -/
def defaultPO : POExtractResponse :=
  ⟨none, none, none, none, none, none, none, none, none, none, none, none⟩

/-- One page extraction outcome (`PageExtractResponse`).  The source type
also carries `job_id`, `page_num` and `total_pages`, which the merge never
reads; only `purchase_orders` is modelled. -/
structure PageExtractResponse where
  purchase_orders : Option (List POExtractResponse)
deriving DecidableEq

/-- The merged result type (`MultiPOExtractResponse`). -/
structure MultiPOExtractResponse where
  purchase_orders : List POExtractResponse
deriving DecidableEq

/-- Grouping key of an entry: `po.po_number?.trim() || null`.  A trimmed
key that is the empty string is falsy, hence `null`. -/
def poKey (po : POExtractResponse) : Option String :=
  match po.po_number with
  | none => none
  | some s => if jsTrim s = "" then none else some (jsTrim s)

/-- One fill-field step, `if (!existing[f] && po[f]) existing[f] = po[f]`,
for a string field. -/
def fillStr (oldv newv : Option String) : Option String :=
  if !strTruthy oldv && strTruthy newv then newv else oldv

/-- One fill-field step for a numeric field. -/
def fillNum (oldv newv : Option ℚ) : Option ℚ :=
  if !numTruthy oldv && numTruthy newv then newv else oldv

/-- The merge body shared by Case A and Case C of `mergePageResults`
(lines 54-61 and 65-73 of the inward page):
`existing.articles = [...(existing.articles || []), ...articles]` followed
by the fill loop over the ten fields of `fillFields`. -/
def mergeInto (existing po : POExtractResponse) : POExtractResponse :=
  { existing with
    articles := some (existing.articles.getD [] ++ po.articles.getD [])
    supplier_name := fillStr existing.supplier_name po.supplier_name
    customer_name := fillStr existing.customer_name po.customer_name
    source_location := fillStr existing.source_location po.source_location
    destination_location := fillStr existing.destination_location po.destination_location
    purchased_by := fillStr existing.purchased_by po.purchased_by
    currency := fillStr existing.currency po.currency
    total_amount := fillNum existing.total_amount po.total_amount
    tax_amount := fillNum existing.tax_amount po.tax_amount
    discount_amount := fillNum existing.discount_amount po.discount_amount
    po_quantity := fillNum existing.po_quantity po.po_quantity }

/-- The record pushed in Case B and in the first-orphan branch of Case C:
`{ ...po, articles: [...articles] }` where `articles = po.articles || []`.
The spread keeps every field of `po` (including the untrimmed `po_number`)
and replaces `articles` by an independent copy, which is always an array. -/
def pushedPO (po : POExtractResponse) : POExtractResponse :=
  { po with articles := some (po.articles.getD []) }

/-- Lookup in the `seenPONumbers` record (string keys, number values). -/
def slookup (k : String) : List (String × Nat) → Option Nat
  | [] => none
  | (k', v) :: rest => if k' = k then some v else slookup k rest

/-- In-place update of the element at an index, modelling a field assignment
to `allPOs[idx]`; out of range it is the identity (never reached on the
executions described by the theorems). -/
def modifyAt (l : List α) (i : Nat) (f : α → α) : List α :=
  match l, i with
  | [], _ => []
  | x :: xs, 0 => f x :: xs
  | x :: xs, i + 1 => x :: modifyAt xs i f

/-- The loop state of `mergePageResults`: the `allPOs` accumulator and the
`seenPONumbers` record mapping a trimmed key to the index of its PO. -/
structure MergeState where
  allPOs : List POExtractResponse
  seen : List (String × Nat)
deriving DecidableEq

/-- The body of the inner `for (const po of page.purchase_orders)` loop of
`mergePageResults` (lines 42-78 of the inward page): skip a keyless entry
without articles, merge a seen key into its PO (Case A), push an unseen key
(Case B), merge a keyless entry into the last PO or push it as the first
(Case C). -/
def mergeStep (st : MergeState) (po : POExtractResponse) : MergeState :=
  if poKey po = none ∧ po.articles.getD [] = [] then st
  else
    match poKey po with
    | some k =>
        match slookup k st.seen with
        | some idx =>
            { st with allPOs := modifyAt st.allPOs idx (fun e => mergeInto e po) }
        | none =>
            { allPOs := st.allPOs ++ [pushedPO po]
              seen := st.seen ++ [(k, st.allPOs.length)] }
    | none =>
        if st.allPOs.isEmpty then { st with allPOs := [pushedPO po] }
        else { st with allPOs := modifyAt st.allPOs (st.allPOs.length - 1) (fun e => mergeInto e po) }

/-- The body of the outer `for (const page of pageResults)` loop: a page with
an absent or empty `purchase_orders` list contributes nothing. -/
def pageStep (st : MergeState) (page : PageExtractResponse) : MergeState :=
  match page.purchase_orders with
  | none => st
  | some pos => if pos = [] then st else pos.foldl mergeStep st

/-- The final loop state of `mergePageResults` on a page list. -/
def mergeStateOf (pageResults : List PageExtractResponse) : MergeState :=
  pageResults.foldl pageStep ⟨[], []⟩

/-- Merge per-page extraction results into one `MultiPOExtractResponse`
(lines 35-82 of `src/app/[company]/inward/new/page.tsx`). -/
def mergePageResults (pageResults : List PageExtractResponse) : MultiPOExtractResponse :=
  ⟨(mergeStateOf pageResults).allPOs⟩

/-- The merged PO list of a page list. -/
def mergedPOs (pageResults : List PageExtractResponse) : List POExtractResponse :=
  (mergePageResults pageResults).purchase_orders

/-- A page with the given entries, as built when re-merging merged output. -/
def mkPage (pos : List POExtractResponse) : PageExtractResponse := ⟨some pos⟩

/-- The flat entry sequence a page list feeds to the inner loop. -/
def entriesOf (pages : List PageExtractResponse) : List POExtractResponse :=
  pages.flatMap (fun p => p.purchase_orders.getD [])

theorem foldl_pageStep_eq (pages : List PageExtractResponse) (st : MergeState) :
    pages.foldl pageStep st = (entriesOf pages).foldl mergeStep st := by
  induction pages generalizing st with
  | nil => rfl
  | cons p rest ih =>
      cases hp : p.purchase_orders with
      | none => simp [entriesOf, List.flatMap_cons, pageStep, hp, ih]
      | some pos =>
          by_cases hpos : pos = [] <;>
            simp [entriesOf, List.flatMap_cons, pageStep, hp, hpos, ih, List.foldl_append]

theorem mergeStateOf_eq (pages : List PageExtractResponse) :
    mergeStateOf pages = (entriesOf pages).foldl mergeStep ⟨[], []⟩ :=
  foldl_pageStep_eq pages ⟨[], []⟩

theorem entriesOf_map_mkPage_singleton (l : List POExtractResponse) :
    entriesOf (l.map (fun po => mkPage [po])) = l := by
  induction l with
  | nil => rfl
  | cons po rest ih => simp [entriesOf, mkPage, List.flatMap_cons] at ih ⊢; exact ih

/-! Helper lemmas about `modifyAt`, `slookup` and list reads. -/

theorem modifyAt_length (l : List α) (i : Nat) (f : α → α) :
    (modifyAt l i f).length = l.length := by
  induction l generalizing i with
  | nil => rfl
  | cons x xs ih => cases i <;> simp [modifyAt, ih]

theorem modifyAt_getD (l : List α) (i : Nat) (f : α → α) (h : i < l.length) (d : α) :
    (modifyAt l i f).getD i d = f (l.getD i d) := by
  induction l generalizing i with
  | nil => simp at h
  | cons x xs ih =>
      cases i with
      | zero => simp [modifyAt]
      | succ j =>
          simp only [List.length_cons, Nat.succ_lt_succ_iff] at h
          simp only [modifyAt, List.getD_cons_succ]
          exact ih j h

theorem modifyAt_getD_ne (l : List α) (i j : Nat) (f : α → α) (hne : j ≠ i) (d : α) :
    (modifyAt l i f).getD j d = l.getD j d := by
  induction l generalizing i j with
  | nil => rfl
  | cons x xs ih =>
      cases i with
      | zero =>
          cases j with
          | zero => exact absurd rfl hne
          | succ j' => simp [modifyAt]
      | succ i' =>
          cases j with
          | zero => simp [modifyAt]
          | succ j' => simp only [modifyAt, List.getD_cons_succ]; exact ih i' j' (fun h => hne (by omega))

theorem getD_append_lt (l₁ l₂ : List α) (i : Nat) (h : i < l₁.length) (d : α) :
    (l₁ ++ l₂).getD i d = l₁.getD i d := by
  induction l₁ generalizing i with
  | nil => simp at h
  | cons x xs ih =>
      cases i with
      | zero => rfl
      | succ j => simp only [List.length_cons, Nat.succ_lt_succ_iff] at h; simpa using ih j h

theorem getD_append_len (l₁ : List α) (x : α) (d : α) :
    (l₁ ++ [x]).getD l₁.length d = x := by
  induction l₁ with
  | nil => rfl
  | cons y ys ih =>
      simp only [List.cons_append, List.length_cons, List.getD_cons_succ]
      exact ih

theorem slookup_append (k : String) (l₁ l₂ : List (String × Nat)) :
    slookup k (l₁ ++ l₂) =
      match slookup k l₁ with
      | some v => some v
      | none => slookup k l₂ := by
  induction l₁ with
  | nil => rfl
  | cons p rest ih =>
      by_cases hk : p.1 = k
      · simp [slookup, hk]
      · simpa [slookup, hk] using ih

/-! Small facts about the merge building blocks. -/

theorem poKey_mergeInto (e po : POExtractResponse) : poKey (mergeInto e po) = poKey e := by
  simp [poKey, mergeInto]

theorem articles_mergeInto (e po : POExtractResponse) :
    (mergeInto e po).articles = some (e.articles.getD [] ++ po.articles.getD []) := rfl

theorem po_number_mergeInto (e po : POExtractResponse) :
    (mergeInto e po).po_number = e.po_number := rfl

theorem poKey_pushedPO (po : POExtractResponse) : poKey (pushedPO po) = poKey po := by
  simp [poKey, pushedPO]

theorem articles_pushedPO (po : POExtractResponse) :
    (pushedPO po).articles = some (po.articles.getD []) := rfl

theorem pushedPO_of_isSome (po : POExtractResponse) (h : po.articles.isSome = true) :
    pushedPO po = po := by
  obtain ⟨pn, sn, cn, sl, dl, pb, cur, ta, tax, da, pq, arts⟩ := po
  cases arts with
  | none => simp at h
  | some l => rfl

theorem fillStr_of_truthy (a b : Option String) (h : strTruthy a = true) : fillStr a b = a := by
  simp [fillStr, h]

theorem fillStr_of_falsy_truthy (a b : Option String) (h : strTruthy a = false)
    (h' : strTruthy b = true) : fillStr a b = b := by
  simp [fillStr, h, h']

theorem fillStr_of_falsy_falsy (a b : Option String) (h : strTruthy a = false)
    (h' : strTruthy b = false) : fillStr a b = a := by
  simp [fillStr, h, h']

theorem fillNum_of_truthy (a b : Option ℚ) (h : numTruthy a = true) : fillNum a b = a := by
  simp [fillNum, h]

theorem fillNum_of_falsy_truthy (a b : Option ℚ) (h : numTruthy a = false)
    (h' : numTruthy b = true) : fillNum a b = b := by
  simp [fillNum, h, h']

theorem fillNum_of_falsy_falsy (a b : Option ℚ) (h : numTruthy a = false)
    (h' : numTruthy b = false) : fillNum a b = a := by
  simp [fillNum, h, h']

/-! Case characterisations of `mergeStep`. -/

theorem mergeStep_skip (st : MergeState) (po : POExtractResponse)
    (h1 : poKey po = none) (h2 : po.articles.getD [] = []) : mergeStep st po = st := by
  simp [mergeStep, h1, h2]

theorem mergeStep_caseA (st : MergeState) (po : POExtractResponse) (k : String) (idx : Nat)
    (hk : poKey po = some k) (hl : slookup k st.seen = some idx) :
    mergeStep st po = { st with allPOs := modifyAt st.allPOs idx (fun e => mergeInto e po) } := by
  simp [mergeStep, hk, hl]

theorem mergeStep_caseB (st : MergeState) (po : POExtractResponse) (k : String)
    (hk : poKey po = some k) (hl : slookup k st.seen = none) :
    mergeStep st po = ⟨st.allPOs ++ [pushedPO po], st.seen ++ [(k, st.allPOs.length)]⟩ := by
  simp [mergeStep, hk, hl]

theorem mergeStep_caseC_push (st : MergeState) (po : POExtractResponse)
    (hk : poKey po = none) (ha : po.articles.getD [] ≠ []) (he : st.allPOs = []) :
    mergeStep st po = { st with allPOs := [pushedPO po] } := by
  simp [mergeStep, hk, ha, he]

theorem mergeStep_caseC_merge (st : MergeState) (po : POExtractResponse)
    (hk : poKey po = none) (ha : po.articles.getD [] ≠ []) (he : st.allPOs ≠ []) :
    mergeStep st po =
      { st with allPOs := modifyAt st.allPOs (st.allPOs.length - 1) (fun e => mergeInto e po) } := by
  simp [mergeStep, hk, ha, List.isEmpty_iff, he]

/-- Structural invariant of the merge loop state: every accumulated PO owns
an article array, `seenPONumbers` maps a trimmed key to the unique index of
the accumulated PO whose own trimmed `po_number` is that key, and a keyless
PO can sit only at index 0 and owns at least one article. -/
structure MergeInv (st : MergeState) : Prop where
  articlesSome : ∀ i, i < st.allPOs.length → (st.allPOs.getD i defaultPO).articles.isSome = true
  lookup_lt : ∀ k i, slookup k st.seen = some i → i < st.allPOs.length
  lookup_key : ∀ k i, slookup k st.seen = some i → poKey (st.allPOs.getD i defaultPO) = some k
  key_lookup : ∀ i k, i < st.allPOs.length → poKey (st.allPOs.getD i defaultPO) = some k →
      slookup k st.seen = some i
  orphan_first : ∀ i, i < st.allPOs.length → poKey (st.allPOs.getD i defaultPO) = none →
      i = 0 ∧ (st.allPOs.getD i defaultPO).articles.getD [] ≠ []

theorem mergeInv_init : MergeInv ⟨[], []⟩ := by
  refine ⟨?_, ?_, ?_, ?_, ?_⟩
  · intro i hi; simp at hi
  · intro k i hl; simp [slookup] at hl
  · intro k i hl; simp [slookup] at hl
  · intro i k hi; simp at hi
  · intro i hi; simp at hi

theorem mergeStep_inv (st : MergeState) (po : POExtractResponse) (h : MergeInv st) :
    MergeInv (mergeStep st po) := by
  cases hkey : poKey po with
  | none =>
      by_cases ha : po.articles.getD [] = []
      · rw [mergeStep_skip st po hkey ha]; exact h
      · by_cases he : st.allPOs = []
        · rw [mergeStep_caseC_push st po hkey ha he]
          refine ⟨?_, ?_, ?_, ?_, ?_⟩
          · intro i hi
            simp only [List.length_singleton] at hi
            interval_cases i
            simp [articles_pushedPO]
          · intro k i hl
            have := h.lookup_lt k i hl
            rw [he] at this
            simp at this
          · intro k i hl
            have := h.lookup_lt k i hl
            rw [he] at this
            simp at this
          · intro i k hi hk
            simp only [List.length_singleton] at hi
            interval_cases i
            simp only [List.getD_cons_zero, poKey_pushedPO, hkey] at hk
            cases hk
          · intro i hi _
            simp only [List.length_singleton] at hi
            interval_cases i
            refine ⟨rfl, ?_⟩
            simp only [List.getD_cons_zero, articles_pushedPO]
            simpa using ha
        · rw [mergeStep_caseC_merge st po hkey ha he]
          have hlen : st.allPOs.length - 1 < st.allPOs.length := by
            have : st.allPOs.length ≠ 0 := fun hz => he (List.length_eq_zero.mp hz)
            omega
          refine ⟨?_, ?_, ?_, ?_, ?_⟩
          · intro i hi
            simp only [modifyAt_length] at hi
            by_cases hii : i = st.allPOs.length - 1
            · subst hii
              rw [modifyAt_getD _ _ _ hlen, articles_mergeInto]
              rfl
            · rw [modifyAt_getD_ne _ _ _ _ hii]
              exact h.articlesSome i hi
          · intro k i hl
            simpa only [modifyAt_length] using h.lookup_lt k i hl
          · intro k i hl
            have hi := h.lookup_lt k i hl
            by_cases hii : i = st.allPOs.length - 1
            · subst hii
              rw [modifyAt_getD _ _ _ hlen, poKey_mergeInto]
              exact h.lookup_key k _ hl
            · rw [modifyAt_getD_ne _ _ _ _ hii]
              exact h.lookup_key k i hl
          · intro i k hi hk
            simp only [modifyAt_length] at hi
            by_cases hii : i = st.allPOs.length - 1
            · subst hii
              rw [modifyAt_getD _ _ _ hlen, poKey_mergeInto] at hk
              exact h.key_lookup _ k hlen hk
            · rw [modifyAt_getD_ne _ _ _ _ hii] at hk
              exact h.key_lookup i k hi hk
          · intro i hi hk
            simp only [modifyAt_length] at hi
            by_cases hii : i = st.allPOs.length - 1
            · subst hii
              rw [modifyAt_getD _ _ _ hlen, poKey_mergeInto] at hk
              rw [modifyAt_getD _ _ _ hlen, articles_mergeInto]
              obtain ⟨hz, hne⟩ := h.orphan_first _ hlen hk
              refine ⟨hz, ?_⟩
              simp only [Option.getD_some]
              intro hcontra
              exact hne (List.append_eq_nil.mp hcontra).1
            · rw [modifyAt_getD_ne _ _ _ _ hii] at hk
              rw [modifyAt_getD_ne _ _ _ _ hii]
              exact h.orphan_first i hi hk
  | some k =>
      cases hl : slookup k st.seen with
      | none =>
          rw [mergeStep_caseB st po k hkey hl]
          have hne : ¬ (poKey po = none ∧ po.articles.getD [] = []) := by
            rw [hkey]; rintro ⟨hcontra, -⟩; cases hcontra
          refine ⟨?_, ?_, ?_, ?_, ?_⟩
          · intro i hi
            simp only [List.length_append, List.length_singleton] at hi
            by_cases hii : i < st.allPOs.length
            · rw [getD_append_lt _ _ _ hii]
              exact h.articlesSome i hii
            · have : i = st.allPOs.length := by omega
              subst this
              rw [getD_append_len, articles_pushedPO]
              rfl
          · intro k' i hl'
            rw [slookup_append] at hl'
            simp only [List.length_append, List.length_singleton]
            cases hcase : slookup k' st.seen with
            | some j =>
                rw [hcase] at hl'
                cases hl'
                have := h.lookup_lt k' _ hcase
                omega
            | none =>
                rw [hcase] at hl'
                simp only [slookup] at hl'
                by_cases hkk : k = k'
                · simp only [hkk, if_pos rfl] at hl'
                  cases hl'
                  omega
                · simp only [if_neg hkk, slookup] at hl'
                  cases hl'
          · intro k' i hl'
            rw [slookup_append] at hl'
            cases hcase : slookup k' st.seen with
            | some j =>
                rw [hcase] at hl'
                cases hl'
                have hj := h.lookup_lt k' _ hcase
                rw [getD_append_lt _ _ _ hj]
                exact h.lookup_key k' _ hcase
            | none =>
                rw [hcase] at hl'
                simp only [slookup] at hl'
                by_cases hkk : k = k'
                · simp only [hkk, if_pos rfl] at hl'
                  cases hl'
                  rw [getD_append_len, poKey_pushedPO, hkey, hkk]
                · simp only [if_neg hkk, slookup] at hl'
                  cases hl'
          · intro i k' hi hk'
            simp only [List.length_append, List.length_singleton] at hi
            rw [slookup_append]
            by_cases hii : i < st.allPOs.length
            · rw [getD_append_lt _ _ _ hii] at hk'
              rw [h.key_lookup i k' hii hk']
            · have hieq : i = st.allPOs.length := by omega
              subst hieq
              rw [getD_append_len, poKey_pushedPO, hkey] at hk'
              cases hk'
              rw [hl]
              simp [slookup]
          · intro i hi hk'
            simp only [List.length_append, List.length_singleton] at hi
            by_cases hii : i < st.allPOs.length
            · rw [getD_append_lt _ _ _ hii] at hk'
              rw [getD_append_lt _ _ _ hii]
              exact h.orphan_first i hii hk'
            · have hieq : i = st.allPOs.length := by omega
              subst hieq
              rw [getD_append_len, poKey_pushedPO, hkey] at hk'
              cases hk'
      | some idx =>
          rw [mergeStep_caseA st po k idx hkey hl]
          have hlen : idx < st.allPOs.length := h.lookup_lt k idx hl
          refine ⟨?_, ?_, ?_, ?_, ?_⟩
          · intro i hi
            simp only [modifyAt_length] at hi
            by_cases hii : i = idx
            · subst hii
              rw [modifyAt_getD _ _ _ hlen, articles_mergeInto]
              rfl
            · rw [modifyAt_getD_ne _ _ _ _ hii]
              exact h.articlesSome i hi
          · intro k' i hl'
            simpa only [modifyAt_length] using h.lookup_lt k' i hl'
          · intro k' i hl'
            by_cases hii : i = idx
            · subst hii
              rw [modifyAt_getD _ _ _ hlen, poKey_mergeInto]
              exact h.lookup_key k' _ hl'
            · rw [modifyAt_getD_ne _ _ _ _ hii]
              exact h.lookup_key k' i hl'
          · intro i k' hi hk'
            simp only [modifyAt_length] at hi
            by_cases hii : i = idx
            · subst hii
              rw [modifyAt_getD _ _ _ hlen, poKey_mergeInto] at hk'
              exact h.key_lookup _ k' hlen hk'
            · rw [modifyAt_getD_ne _ _ _ _ hii] at hk'
              exact h.key_lookup i k' hi hk'
          · intro i hi hk'
            simp only [modifyAt_length] at hi
            by_cases hii : i = idx
            · subst hii
              rw [modifyAt_getD _ _ _ hlen, poKey_mergeInto] at hk'
              have hcontra := h.lookup_key k _ hl
              rw [hk'] at hcontra
              cases hcontra
            · rw [modifyAt_getD_ne _ _ _ _ hii] at hk'
              rw [modifyAt_getD_ne _ _ _ _ hii]
              exact h.orphan_first i hi hk'

theorem foldl_mergeStep_inv (l : List POExtractResponse) (st : MergeState) (h : MergeInv st) :
    MergeInv (l.foldl mergeStep st) := by
  induction l generalizing st with
  | nil => exact h
  | cons po rest ih => exact ih _ (mergeStep_inv st po h)

theorem mergeStateOf_inv (pages : List PageExtractResponse) : MergeInv (mergeStateOf pages) := by
  rw [mergeStateOf_eq]
  exact foldl_mergeStep_inv _ _ mergeInv_init

theorem mergedPOs_eq (pages : List PageExtractResponse) :
    mergedPOs pages = (mergeStateOf pages).allPOs := rfl

theorem mergeStateOf_append_single (pages : List PageExtractResponse) (e : POExtractResponse) :
    mergeStateOf (pages ++ [mkPage [e]]) = mergeStep (mergeStateOf pages) e := by
  unfold mergeStateOf
  rw [List.foldl_append]
  rfl

/-! Specification-side characterisation of the only-if-falsy backfill rule. -/

/-- Specification of one only-if-falsy backfill step on a string field: a
populated (truthy) existing value is never overwritten; a falsy existing
value is filled exactly from a truthy incoming value. -/
def fillStrSpec (oldv newv res : Option String) : Prop :=
  (strTruthy oldv = true → res = oldv) ∧
  (strTruthy oldv = false → strTruthy newv = true → res = newv) ∧
  (strTruthy oldv = false → strTruthy newv = false → res = oldv)

/-- Specification of one only-if-falsy backfill step on a numeric field. -/
def fillNumSpec (oldv newv res : Option ℚ) : Prop :=
  (numTruthy oldv = true → res = oldv) ∧
  (numTruthy oldv = false → numTruthy newv = true → res = newv) ∧
  (numTruthy oldv = false → numTruthy newv = false → res = oldv)

/-- The ten-field only-if-falsy backfill contract of the merge: `res` holds
the fields of `oldpo` backfilled from `newpo` under the only-if-falsy rule,
field by field over the fixed `fillFields` set. -/
def backfillSpec (oldpo newpo res : POExtractResponse) : Prop :=
  fillStrSpec oldpo.supplier_name newpo.supplier_name res.supplier_name ∧
  fillStrSpec oldpo.customer_name newpo.customer_name res.customer_name ∧
  fillStrSpec oldpo.source_location newpo.source_location res.source_location ∧
  fillStrSpec oldpo.destination_location newpo.destination_location res.destination_location ∧
  fillStrSpec oldpo.purchased_by newpo.purchased_by res.purchased_by ∧
  fillStrSpec oldpo.currency newpo.currency res.currency ∧
  fillNumSpec oldpo.total_amount newpo.total_amount res.total_amount ∧
  fillNumSpec oldpo.tax_amount newpo.tax_amount res.tax_amount ∧
  fillNumSpec oldpo.discount_amount newpo.discount_amount res.discount_amount ∧
  fillNumSpec oldpo.po_quantity newpo.po_quantity res.po_quantity

theorem fillStr_spec (a b : Option String) : fillStrSpec a b (fillStr a b) := by
  refine ⟨?_, ?_, ?_⟩
  · intro h; simp [fillStr, h]
  · intro h h'; simp [fillStr, h, h']
  · intro h h'; simp [fillStr, h, h']

theorem fillNum_spec (a b : Option ℚ) : fillNumSpec a b (fillNum a b) := by
  refine ⟨?_, ?_, ?_⟩
  · intro h; simp [fillNum, h]
  · intro h h'; simp [fillNum, h, h']
  · intro h h'; simp [fillNum, h, h']

theorem mergeInto_backfillSpec (e po : POExtractResponse) :
    backfillSpec e po (mergeInto e po) :=
  ⟨fillStr_spec _ _, fillStr_spec _ _, fillStr_spec _ _, fillStr_spec _ _, fillStr_spec _ _,
   fillStr_spec _ _, fillNum_spec _ _, fillNum_spec _ _, fillNum_spec _ _, fillNum_spec _ _⟩

/-- Claim C4.  When a later entry carries a trimmed `po_number` equal to the
key of a previously created PO, the merge appends the entry articles to that
PO article sequence in order, keeps its `po_number`, backfills each of the
ten fill fields only if the existing field is falsy (a populated field is
never overwritten), and leaves every other PO of the output unchanged. -/
theorem mergePageResults_caseA_appends_and_backfills
    (pages : List PageExtractResponse) (e : POExtractResponse) (k : String) (i : Nat)
    (hk : poKey e = some k)
    (hi : i < (mergedPOs pages).length)
    (hkey : poKey ((mergedPOs pages).getD i defaultPO) = some k) :
    (mergedPOs (pages ++ [mkPage [e]])).length = (mergedPOs pages).length ∧
    ((mergedPOs (pages ++ [mkPage [e]])).getD i defaultPO).articles.getD [] =
      ((mergedPOs pages).getD i defaultPO).articles.getD [] ++ e.articles.getD [] ∧
    ((mergedPOs (pages ++ [mkPage [e]])).getD i defaultPO).po_number =
      ((mergedPOs pages).getD i defaultPO).po_number ∧
    backfillSpec ((mergedPOs pages).getD i defaultPO) e
      ((mergedPOs (pages ++ [mkPage [e]])).getD i defaultPO) ∧
    (∀ j, j ≠ i →
      (mergedPOs (pages ++ [mkPage [e]])).getD j defaultPO =
        (mergedPOs pages).getD j defaultPO) := by
  have hinv := mergeStateOf_inv pages
  rw [mergedPOs_eq] at hi hkey
  have hsl : slookup k (mergeStateOf pages).seen = some i :=
    hinv.key_lookup i k hi hkey
  have hstep : mergeStateOf (pages ++ [mkPage [e]]) =
      { mergeStateOf pages with
        allPOs := modifyAt (mergeStateOf pages).allPOs i (fun x => mergeInto x e) } := by
    rw [mergeStateOf_append_single, mergeStep_caseA _ e k i hk hsl]
  rw [mergedPOs_eq, mergedPOs_eq, hstep]
  simp only []
  refine ⟨modifyAt_length _ _ _, ?_, ?_, ?_, ?_⟩
  · rw [modifyAt_getD _ _ _ hi, articles_mergeInto]
    rfl
  · rw [modifyAt_getD _ _ _ hi, po_number_mergeInto]
  · rw [modifyAt_getD _ _ _ hi]
    exact mergeInto_backfillSpec _ _
  · intro j hj
    exact modifyAt_getD_ne _ _ _ _ hj _

/-- Sample data for the Case A witness: page 1 carries PO PO1 from supplier
Acme with one article, page 2 carries the same PO from supplier Other with
two more articles. -/
def acmePO : POExtractResponse :=
  { defaultPO with
    po_number := some "PO1"
    supplier_name := some "Acme"
    articles := some [⟨"widget", none, none, none⟩] }

/-- Second-page entry of the Case A witness. -/
def otherPO : POExtractResponse :=
  { defaultPO with
    po_number := some "PO1"
    supplier_name := some "Other"
    articles := some [⟨"bolt", none, none, none⟩, ⟨"nut", none, none, none⟩] }

/-- Witness for claim C4 at the spec scenario: two pages both carrying PO1
merge into one PO that keeps the first-page supplier Acme and concatenates
the article lists (1 + 2 articles). -/
theorem mergePageResults_caseA_witness :
    poKey otherPO = some "PO1" ∧
    0 < (mergedPOs [mkPage [acmePO]]).length ∧
    poKey ((mergedPOs [mkPage [acmePO]]).getD 0 defaultPO) = some "PO1" ∧
    ((mergedPOs ([mkPage [acmePO]] ++ [mkPage [otherPO]])).getD 0 defaultPO).articles.getD [] =
      ((mergedPOs [mkPage [acmePO]]).getD 0 defaultPO).articles.getD [] ++
        otherPO.articles.getD [] ∧
    (mergedPOs ([mkPage [acmePO]] ++ [mkPage [otherPO]])).length = 1 ∧
    ((mergedPOs ([mkPage [acmePO]] ++ [mkPage [otherPO]])).getD 0 defaultPO).supplier_name =
      some "Acme" ∧
    (((mergedPOs ([mkPage [acmePO]] ++ [mkPage [otherPO]])).getD 0 defaultPO).articles.getD
        []).length = 3 :=
  ⟨by decide, by decide, by decide,
    (mergePageResults_caseA_appends_and_backfills [mkPage [acmePO]] otherPO "PO1" 0
      (by decide) (by decide) (by decide)).2.1,
    by decide, by decide, by decide⟩

/-- Claim C5, amended.  A keyless entry that owns at least one article is
merged into the most recently appended PO when at least one PO exists
(articles appended, empty fields backfilled under the only-if-falsy rule,
other POs untouched), and becomes the first PO record when none exists. -/
theorem mergePageResults_caseC_orphan
    (pages : List PageExtractResponse) (e : POExtractResponse)
    (hk : poKey e = none) (ha : e.articles.getD [] ≠ []) :
    (mergedPOs pages = [] → mergedPOs (pages ++ [mkPage [e]]) = [pushedPO e]) ∧
    (∀ n, (mergedPOs pages).length = n + 1 →
      (mergedPOs (pages ++ [mkPage [e]])).length = n + 1 ∧
      ((mergedPOs (pages ++ [mkPage [e]])).getD n defaultPO).articles.getD [] =
        ((mergedPOs pages).getD n defaultPO).articles.getD [] ++ e.articles.getD [] ∧
      ((mergedPOs (pages ++ [mkPage [e]])).getD n defaultPO).po_number =
        ((mergedPOs pages).getD n defaultPO).po_number ∧
      backfillSpec ((mergedPOs pages).getD n defaultPO) e
        ((mergedPOs (pages ++ [mkPage [e]])).getD n defaultPO) ∧
      (∀ j, j ≠ n →
        (mergedPOs (pages ++ [mkPage [e]])).getD j defaultPO =
          (mergedPOs pages).getD j defaultPO)) := by
  constructor
  · intro hemp
    rw [mergedPOs_eq] at hemp
    rw [mergedPOs_eq, mergeStateOf_append_single, mergeStep_caseC_push _ e hk ha hemp]
  · intro n hn
    rw [mergedPOs_eq] at hn
    have hne : (mergeStateOf pages).allPOs ≠ [] := by
      intro hcontra
      rw [hcontra] at hn
      simp at hn
    have hstep : mergeStateOf (pages ++ [mkPage [e]]) =
        { mergeStateOf pages with
          allPOs := modifyAt (mergeStateOf pages).allPOs
            ((mergeStateOf pages).allPOs.length - 1) (fun x => mergeInto x e) } := by
      rw [mergeStateOf_append_single, mergeStep_caseC_merge _ e hk ha hne]
    have hidx : (mergeStateOf pages).allPOs.length - 1 = n := by omega
    have hlt : n < (mergeStateOf pages).allPOs.length := by omega
    rw [mergedPOs_eq, mergedPOs_eq, hstep]
    simp only [hidx]
    refine ⟨by rw [modifyAt_length, hn], ?_, ?_, ?_, ?_⟩
    · rw [modifyAt_getD _ _ _ hlt, articles_mergeInto]
      rfl
    · rw [modifyAt_getD _ _ _ hlt, po_number_mergeInto]
    · rw [modifyAt_getD _ _ _ hlt]
      exact mergeInto_backfillSpec _ _
    · intro j hj
      exact modifyAt_getD_ne _ _ _ _ hj _

/-- Sample keyed entry for the C5 scenarios: PO K with one article and no
supplier. -/
def kPO : POExtractResponse :=
  { defaultPO with po_number := some "K", articles := some [⟨"item", none, none, none⟩] }

/-- Keyless continuation entry with two articles for the C5 witness. -/
def orphanPO : POExtractResponse :=
  { defaultPO with
    articles := some [⟨"cont1", none, none, none⟩, ⟨"cont2", none, none, none⟩] }

/-- Witness for claim C5 at the spec scenario: page 1 PO K with one article
followed by a keyless page-2 entry with two articles merges into one PO with
three articles; and the same orphan against an empty output becomes the
first PO record. -/
theorem mergePageResults_caseC_orphan_witness :
    poKey orphanPO = none ∧
    orphanPO.articles.getD [] ≠ [] ∧
    (mergedPOs [mkPage [kPO]]).length = 0 + 1 ∧
    ((mergedPOs ([mkPage [kPO]] ++ [mkPage [orphanPO]])).getD 0 defaultPO).articles.getD [] =
      ((mergedPOs [mkPage [kPO]]).getD 0 defaultPO).articles.getD [] ++
        orphanPO.articles.getD [] ∧
    mergedPOs ([] ++ [mkPage [orphanPO]]) = [pushedPO orphanPO] ∧
    (((mergedPOs ([mkPage [kPO]] ++ [mkPage [orphanPO]])).getD 0 defaultPO).articles.getD
        []).length = 3 ∧
    (mergedPOs ([mkPage [kPO]] ++ [mkPage [orphanPO]])).length = 1 :=
  ⟨by decide, by decide, by decide,
    ((mergePageResults_caseC_orphan [mkPage [kPO]] orphanPO
      (by decide) (by decide)).2 0 (by decide)).2.1,
    (mergePageResults_caseC_orphan [] orphanPO (by decide) (by decide)).1 (by decide),
    by decide, by decide⟩

/-- Keyless, articleless entry that still carries a supplier name; the
noise-skip rule of the merge discards it entirely. -/
def noiseEntry : POExtractResponse := { defaultPO with supplier_name := some "X" }

/-- Counterexample to claim C5 as stated.  The claim reads: for every input,
an entry with no key is merged into the most recently appended PO, its
articles appended and empty fields backfilled under the only-if-falsy rule.
The entry `noiseEntry` has no key, no articles and a truthy supplier name
X; the preceding PO K has a falsy supplier name, so the claim predicts the
merged PO ends with supplier name X.  The code instead discards the entry
at the noise-skip rule (line 46 of the inward page: a keyless entry without
articles is skipped before Case C is reached), and the supplier name stays
absent. -/
theorem mergePageResults_caseC_counterexample :
    poKey noiseEntry = none ∧
    strTruthy noiseEntry.supplier_name = true ∧
    (mergedPOs [mkPage [kPO]]).length = 1 ∧
    strTruthy ((mergedPOs [mkPage [kPO]]).getD 0 defaultPO).supplier_name = false ∧
    mergedPOs [mkPage [kPO], mkPage [noiseEntry]] = mergedPOs [mkPage [kPO]] ∧
    ((mergedPOs [mkPage [kPO], mkPage [noiseEntry]]).getD 0 defaultPO).supplier_name ≠
      noiseEntry.supplier_name := by
  refine ⟨by decide, by decide, by decide, by decide, by decide, by decide⟩

/-! Idempotence of the merge (claim C6).  Re-merging the singleton-wrapped
output reproduces the output: every output PO either carries a fresh key
(Case B pushes it back unchanged) or is the keyless first PO with articles
(the first-orphan branch pushes it back unchanged). -/

theorem getD_append_mid (l₁ l₂ : List α) (x : α) (d : α) :
    (l₁ ++ x :: l₂).getD l₁.length d = x := by
  induction l₁ with
  | nil => rfl
  | cons y ys ih =>
      simp only [List.cons_append, List.length_cons, List.getD_cons_succ]
      exact ih

/-- The `seenPONumbers` record that re-merging a merged output rebuilds:
one entry per keyed PO, mapping its key to its index, starting at `n`. -/
def seenOfAux (n : Nat) : List POExtractResponse → List (String × Nat)
  | [] => []
  | po :: rest =>
      match poKey po with
      | some k => (k, n) :: seenOfAux (n + 1) rest
      | none => seenOfAux (n + 1) rest

/-- The `seenPONumbers` record matching a merged output list. -/
def seenOf (l : List POExtractResponse) : List (String × Nat) := seenOfAux 0 l

theorem seenOfAux_append (n : Nat) (l m : List POExtractResponse) :
    seenOfAux n (l ++ m) = seenOfAux n l ++ seenOfAux (n + l.length) m := by
  induction l generalizing n with
  | nil => simp [seenOfAux]
  | cons po rest ih =>
      cases hkey : poKey po with
      | none =>
          simp only [List.cons_append, seenOfAux, hkey, List.length_cons, List.append_eq]
          rw [ih (n + 1)]
          congr 2
          omega
      | some k =>
          simp only [List.cons_append, seenOfAux, hkey, List.length_cons, List.append_eq]
          rw [ih (n + 1)]
          congr 3
          omega

theorem slookup_seenOfAux_some (k : String) (n v : Nat) (l : List POExtractResponse)
    (h : slookup k (seenOfAux n l) = some v) :
    ∃ j, j < l.length ∧ poKey (l.getD j defaultPO) = some k ∧ v = n + j := by
  induction l generalizing n with
  | nil => simp [seenOfAux, slookup] at h
  | cons po rest ih =>
      cases hkey : poKey po with
      | none =>
          rw [seenOfAux, hkey] at h
          obtain ⟨j, hj, hkj, hv⟩ := ih (n + 1) h
          exact ⟨j + 1, by simpa using hj, by simpa using hkj, by omega⟩
      | some k' =>
          rw [seenOfAux, hkey] at h
          by_cases hkk : k' = k
          · rw [slookup, if_pos hkk] at h
            cases h
            exact ⟨0, by simp, by simpa [hkk] using hkey, by omega⟩
          · rw [slookup, if_neg hkk] at h
            obtain ⟨j, hj, hkj, hv⟩ := ih (n + 1) h
            exact ⟨j + 1, by simpa using hj, by simpa using hkj, by omega⟩

theorem remerge_aux (L : List POExtractResponse)
    (h1 : ∀ i, i < L.length → (L.getD i defaultPO).articles.isSome = true)
    (h2 : ∀ i, i < L.length → poKey (L.getD i defaultPO) = none →
      i = 0 ∧ (L.getD i defaultPO).articles.getD [] ≠ [])
    (h3 : ∀ i j k, i < L.length → j < L.length → poKey (L.getD i defaultPO) = some k →
      poKey (L.getD j defaultPO) = some k → i = j) :
    ∀ (l₂ l₁ : List POExtractResponse), L = l₁ ++ l₂ →
      l₂.foldl mergeStep ⟨l₁, seenOf l₁⟩ = ⟨L, seenOf L⟩ := by
  intro l₂
  induction l₂ with
  | nil =>
      intro l₁ hL
      subst hL
      simp
  | cons e rest ih =>
      intro l₁ hL
      have hmid : L.getD l₁.length defaultPO = e := by rw [hL]; exact getD_append_mid _ _ _ _
      have hmlt : l₁.length < L.length := by
        rw [hL]
        simp only [List.length_append, List.length_cons]
        omega
      have harts : e.articles.isSome = true := by
        have := h1 _ hmlt; rwa [hmid] at this
      have hstep : mergeStep ⟨l₁, seenOf l₁⟩ e = ⟨l₁ ++ [e], seenOf (l₁ ++ [e])⟩ := by
        cases hkey : poKey e with
        | none =>
            obtain ⟨hz, hne⟩ := h2 _ hmlt (by rwa [hmid])
            rw [hmid] at hne
            have hl₁ : l₁ = [] := List.length_eq_zero.mp hz
            subst hl₁
            rw [mergeStep_caseC_push _ e hkey hne rfl, pushedPO_of_isSome e harts]
            have hseen : seenOf [e] = [] := by
              simp [seenOf, seenOfAux, hkey]
            rw [List.nil_append]
            exact congrArg _ hseen.symm
        | some k =>
            have hfresh : slookup k (seenOf l₁) = none := by
              cases hcase : slookup k (seenOf l₁) with
              | none => rfl
              | some v =>
                  exfalso
                  obtain ⟨j, hj, hkj, -⟩ := slookup_seenOfAux_some k 0 v l₁ hcase
                  have hjL : poKey (L.getD j defaultPO) = some k := by
                    rw [hL, getD_append_lt _ _ _ hj]
                    exact hkj
                  have hjlt : j < L.length := by
                    rw [hL]
                    simp only [List.length_append]
                    omega
                  have heq := h3 j l₁.length k hjlt hmlt hjL (by rwa [hmid])
                  omega
            rw [mergeStep_caseB _ e k hkey hfresh, pushedPO_of_isSome e harts]
            have hseen : seenOf (l₁ ++ [e]) = seenOf l₁ ++ [(k, l₁.length)] := by
              unfold seenOf
              rw [seenOfAux_append]
              simp [seenOfAux, hkey]
            rw [hseen]
      rw [List.foldl_cons, hstep, ih (l₁ ++ [e]) (by rw [hL, List.append_assoc]; rfl)]

/-- Claim C6.  Merging a page list, wrapping each output PO as its own
single-PO page and merging again reproduces exactly the same output: same
POs, same field values, same articles in the same order. -/
theorem mergePageResults_idempotent (pages : List PageExtractResponse) :
    mergePageResults ((mergePageResults pages).purchase_orders.map (fun po => mkPage [po])) =
      mergePageResults pages := by
  have hinv := mergeStateOf_inv pages
  have h3 : ∀ i j k, i < (mergeStateOf pages).allPOs.length →
      j < (mergeStateOf pages).allPOs.length →
      poKey ((mergeStateOf pages).allPOs.getD i defaultPO) = some k →
      poKey ((mergeStateOf pages).allPOs.getD j defaultPO) = some k → i = j := by
    intro i j k hi hj hik hjk
    have h₁ := hinv.key_lookup i k hi hik
    have h₂ := hinv.key_lookup j k hj hjk
    rw [h₁] at h₂
    exact Option.some_inj.mp h₂
  have hmain := remerge_aux (mergeStateOf pages).allPOs hinv.articlesSome hinv.orphan_first h3
    (mergeStateOf pages).allPOs [] rfl
  show MultiPOExtractResponse.mk _ = MultiPOExtractResponse.mk _
  congr 1
  calc mergedPOs ((mergePageResults pages).purchase_orders.map (fun po => mkPage [po]))
      = ((entriesOf ((mergeStateOf pages).allPOs.map (fun po => mkPage [po]))).foldl
          mergeStep ⟨[], []⟩).allPOs := by
        rw [mergedPOs_eq, mergeStateOf_eq]
        rfl
    _ = ((mergeStateOf pages).allPOs.foldl mergeStep ⟨[], []⟩).allPOs := by
        rw [entriesOf_map_mkPage_singleton]
    _ = (mergeStateOf pages).allPOs := by
        have hseen : (⟨[], []⟩ : MergeState) = ⟨[], seenOf []⟩ := rfl
        rw [hseen, hmain]

/-! Heap model of the merge (claim C7).  JavaScript PO-entry objects live in
a heap of numbered references.  `mergePageResults` receives references to
the page entries, pushes freshly allocated object literals onto `allPOs`
(`allPOs.push({ ...po, articles: [...articles] })`), and performs its field
assignments (`existing.articles = ...`, `existing[f] = po[f]`) only on
objects it allocated itself.  The theorems below show that no pre-existing
object is ever written — the input page list, its PO entries and their
article arrays are unchanged by the call — and that the output values are
exactly the pure merge of the input values, so the result depends on the
input values alone (determinism independent of heap representation). -/

structure Heap where
  objs : Nat → Option POExtractResponse
  next : Nat

/-- Well-formed heap: references at or above the allocation pointer are
unallocated. -/
def Heap.WF (h : Heap) : Prop := ∀ r, h.next ≤ r → h.objs r = none

/-- Read the object behind a reference. -/
def hget (h : Heap) (r : Nat) : POExtractResponse := (h.objs r).getD defaultPO

/-- Overwrite the object behind a reference (the net effect of the field
assignments the merge performs on one object during one loop iteration). -/
def hset (h : Heap) (r : Nat) (v : POExtractResponse) : Heap :=
  ⟨fun r' => if r' = r then some v else h.objs r', h.next⟩

/-- Allocate a fresh object (an object literal). -/
def halloc (h : Heap) (v : POExtractResponse) : Heap × Nat :=
  (⟨fun r' => if r' = h.next then some v else h.objs r', h.next + 1⟩, h.next)

/-- The loop body of `mergePageResults` over the heap: `out` holds the
references of the `allPOs` array, `seen` the `seenPONumbers` record.  The
incoming entry is read through its reference; Case A and Case C write the
merged record back through the reference stored in `out` (the two source
statements, the `articles` assignment and the fill loop, target the same
object, which is distinct from the entry object since every `out` member
was freshly allocated). -/
def heapMergeStep :
    Heap × List Nat × List (String × Nat) → Nat → Heap × List Nat × List (String × Nat)
  | (h, out, seen), ref =>
    let po := hget h ref
    if poKey po = none ∧ po.articles.getD [] = [] then (h, out, seen)
    else
      match poKey po with
      | some k =>
          match slookup k seen with
          | some idx =>
              let eref := out.getD idx 0
              (hset h eref (mergeInto (hget h eref) po), out, seen)
          | none =>
              let alloc := halloc h (pushedPO po)
              (alloc.1, out ++ [alloc.2], seen ++ [(k, out.length)])
      | none =>
          if out.isEmpty then
            let alloc := halloc h (pushedPO po)
            (alloc.1, [alloc.2], seen)
          else
            let eref := out.getD (out.length - 1) 0
            (hset h eref (mergeInto (hget h eref) po), out, seen)

/-- The outer page loop over the heap: a page is an optional array of entry
references. -/
def heapPageStep (st : Heap × List Nat × List (String × Nat)) (page : Option (List Nat)) :
    Heap × List Nat × List (String × Nat) :=
  match page with
  | none => st
  | some refs => if refs = [] then st else refs.foldl heapMergeStep st

/-- `mergePageResults` over the heap: final heap, output references and the
`seenPONumbers` record. -/
def heapMergePageResults (h : Heap) (pages : List (Option (List Nat))) :
    Heap × List Nat × List (String × Nat) :=
  pages.foldl heapPageStep (h, [], [])

/-- The value of a heap page: the `PageExtractResponse` it denotes. -/
def pageValues (h : Heap) (pg : Option (List Nat)) : PageExtractResponse :=
  ⟨pg.map (fun refs => refs.map (hget h))⟩

theorem hget_hset_eq (h : Heap) (r : Nat) (v : POExtractResponse) :
    hget (hset h r v) r = v := by
  simp [hget, hset]

theorem hget_hset_ne (h : Heap) (r : Nat) (v : POExtractResponse) (r' : Nat) (hne : r' ≠ r) :
    hget (hset h r v) r' = hget h r' := by
  simp [hget, hset, hne]

theorem getD_mem (l : List α) (i : Nat) (d : α) (h : i < l.length) : l.getD i d ∈ l := by
  induction l generalizing i with
  | nil => simp at h
  | cons x xs ih =>
      cases i with
      | zero => simp
      | succ j =>
          simp only [List.length_cons, Nat.succ_lt_succ_iff] at h
          simp only [List.getD_cons_succ]
          exact List.mem_cons_of_mem x (ih j h)

theorem getD_map (l : List α) (f : α → β) (i : Nat) (d : β) (d' : α) (h : i < l.length) :
    (l.map f).getD i d = f (l.getD i d') := by
  induction l generalizing i with
  | nil => simp at h
  | cons x xs ih =>
      cases i with
      | zero => simp
      | succ j =>
          simp only [List.length_cons, Nat.succ_lt_succ_iff] at h
          simp only [List.map_cons, List.getD_cons_succ]
          exact ih j h

theorem modifyAt_apply_const (l : List α) (i : Nat) (f : α → α) (d : α) (h : i < l.length) :
    modifyAt l i (fun _ => f (l.getD i d)) = modifyAt l i f := by
  induction l generalizing i with
  | nil => rfl
  | cons x xs ih =>
      cases i with
      | zero => rfl
      | succ j =>
          simp only [List.length_cons, Nat.succ_lt_succ_iff] at h
          simp only [modifyAt, List.getD_cons_succ, List.cons.injEq, true_and]
          exact ih j h

theorem map_hget_hset (out : List Nat) (h : Heap) (idx : Nat) (v : POExtractResponse)
    (hnd : out.Nodup) (hidx : idx < out.length) :
    out.map (hget (hset h (out.getD idx 0) v)) =
      modifyAt (out.map (hget h)) idx (fun _ => v) := by
  induction out generalizing idx with
  | nil => simp at hidx
  | cons r rest ih =>
      rw [List.nodup_cons] at hnd
      cases idx with
      | zero =>
          simp only [List.getD_cons_zero, List.map_cons, modifyAt, hget_hset_eq,
            List.cons.injEq, true_and]
          refine List.map_congr_left ?_
          intro r' hr'
          exact hget_hset_ne h r v r' (fun hcontra => hnd.1 (hcontra ▸ hr'))
      | succ j =>
          simp only [List.length_cons, Nat.succ_lt_succ_iff] at hidx
          simp only [List.getD_cons_succ, List.map_cons, modifyAt, List.cons.injEq]
          constructor
          · refine hget_hset_ne h _ v r (fun hcontra => ?_)
            exact hnd.1 (hcontra ▸ getD_mem rest j 0 hidx)
          · exact ih j hnd.2 hidx

/-- Simulation relation between the heap-level and the pure merge state:
the heap stays well formed, every reference below the initial allocation
pointer is untouched, output references are fresh, distinct and in range,
and their values together with the `seen` record match the pure state. -/
structure HSim (h₀ : Heap) (hs : Heap × List Nat × List (String × Nat)) (ps : MergeState) :
    Prop where
  wf : Heap.WF hs.1
  next_mono : h₀.next ≤ hs.1.next
  frame : ∀ r, r < h₀.next → hs.1.objs r = h₀.objs r
  out_vals : hs.2.1.map (hget hs.1) = ps.allPOs
  seen_eq : hs.2.2 = ps.seen
  out_lb : ∀ r ∈ hs.2.1, h₀.next ≤ r
  out_ub : ∀ r ∈ hs.2.1, r < hs.1.next
  out_nodup : hs.2.1.Nodup

theorem hget_frame (h₀ : Heap) (hs : Heap × List Nat × List (String × Nat)) (ps : MergeState)
    (hsim : HSim h₀ hs ps) (r : Nat) (hr : r < h₀.next) : hget hs.1 r = hget h₀ r := by
  unfold hget
  rw [hsim.frame r hr]

theorem halloc_next (h : Heap) (v : POExtractResponse) : (halloc h v).1.next = h.next + 1 := rfl

theorem halloc_ref (h : Heap) (v : POExtractResponse) : (halloc h v).2 = h.next := rfl

theorem halloc_objs_ne (h : Heap) (v : POExtractResponse) (r : Nat) (hne : r ≠ h.next) :
    (halloc h v).1.objs r = h.objs r := by
  simp [halloc, hne]

theorem hget_halloc_eq (h : Heap) (v : POExtractResponse) : hget (halloc h v).1 h.next = v := by
  simp [hget, halloc]

theorem hget_halloc_ne (h : Heap) (v : POExtractResponse) (r : Nat) (hne : r ≠ h.next) :
    hget (halloc h v).1 r = hget h r := by
  simp [hget, halloc, hne]

theorem hset_next (h : Heap) (r : Nat) (v : POExtractResponse) : (hset h r v).next = h.next := rfl

theorem hset_objs_ne (h : Heap) (r : Nat) (v : POExtractResponse) (r' : Nat) (hne : r' ≠ r) :
    (hset h r v).objs r' = h.objs r' := by
  simp [hset, hne]

theorem heapMergeStep_skip (h : Heap) (out : List Nat) (seen : List (String × Nat)) (ref : Nat)
    (h1 : poKey (hget h ref) = none) (h2 : (hget h ref).articles.getD [] = []) :
    heapMergeStep (h, out, seen) ref = (h, out, seen) := by
  simp [heapMergeStep, h1, h2]

theorem heapMergeStep_caseA (h : Heap) (out : List Nat) (seen : List (String × Nat)) (ref : Nat)
    (k : String) (idx : Nat)
    (hk : poKey (hget h ref) = some k) (hl : slookup k seen = some idx) :
    heapMergeStep (h, out, seen) ref =
      (hset h (out.getD idx 0) (mergeInto (hget h (out.getD idx 0)) (hget h ref)), out, seen) := by
  simp [heapMergeStep, hk, hl]

theorem heapMergeStep_caseB (h : Heap) (out : List Nat) (seen : List (String × Nat)) (ref : Nat)
    (k : String)
    (hk : poKey (hget h ref) = some k) (hl : slookup k seen = none) :
    heapMergeStep (h, out, seen) ref =
      ((halloc h (pushedPO (hget h ref))).1, out ++ [h.next], seen ++ [(k, out.length)]) := by
  simp [heapMergeStep, hk, hl, halloc_ref]

theorem heapMergeStep_caseC_push (h : Heap) (out : List Nat) (seen : List (String × Nat))
    (ref : Nat)
    (hk : poKey (hget h ref) = none) (ha : (hget h ref).articles.getD [] ≠ [])
    (he : out = []) :
    heapMergeStep (h, out, seen) ref =
      ((halloc h (pushedPO (hget h ref))).1, [h.next], seen) := by
  simp [heapMergeStep, hk, ha, he, halloc_ref]

theorem heapMergeStep_caseC_merge (h : Heap) (out : List Nat) (seen : List (String × Nat))
    (ref : Nat)
    (hk : poKey (hget h ref) = none) (ha : (hget h ref).articles.getD [] ≠ [])
    (he : out ≠ []) :
    heapMergeStep (h, out, seen) ref =
      (hset h (out.getD (out.length - 1) 0)
        (mergeInto (hget h (out.getD (out.length - 1) 0)) (hget h ref)), out, seen) := by
  simp [heapMergeStep, hk, ha, List.isEmpty_iff, he]

/-- One step of the simulation between the heap-level merge and the pure
merge: writes stay inside the freshly allocated output objects and the
output values track the pure state. -/
theorem heapMergeStep_sim (h₀ : Heap) (h : Heap) (out : List Nat) (seen : List (String × Nat))
    (ps : MergeState) (ref : Nat)
    (hsim : HSim h₀ (h, out, seen) ps) (hinv : MergeInv ps) (href : ref < h₀.next) :
    HSim h₀ (heapMergeStep (h, out, seen) ref) (mergeStep ps (hget h₀ ref)) := by
  have hpo : hget h ref = hget h₀ ref := hget_frame h₀ (h, out, seen) ps hsim ref href
  have hseen : seen = ps.seen := hsim.seen_eq
  have hlen_out : out.length = ps.allPOs.length := by
    rw [← hsim.out_vals]
    exact (List.length_map _ _).symm
  have hnm : h₀.next ≤ h.next := hsim.next_mono
  have hwfh : Heap.WF h := hsim.wf
  have hub : ∀ r ∈ out, r < h.next := hsim.out_ub
  have hlb : ∀ r ∈ out, h₀.next ≤ r := hsim.out_lb
  have hov : out.map (hget h) = ps.allPOs := hsim.out_vals
  by_cases hskip : poKey (hget h₀ ref) = none ∧ (hget h₀ ref).articles.getD [] = []
  · rw [heapMergeStep_skip h out seen ref (hpo ▸ hskip.1) (hpo ▸ hskip.2),
      mergeStep_skip ps _ hskip.1 hskip.2]
    exact hsim
  · cases hkey : poKey (hget h₀ ref) with
    | some k =>
        cases hsl : slookup k ps.seen with
        | some idx =>
            have hidx' : idx < ps.allPOs.length := hinv.lookup_lt k idx hsl
            have hidx : idx < out.length := by omega
            have heref_mem : out.getD idx 0 ∈ out := getD_mem out idx 0 hidx
            have heref_lb : h₀.next ≤ out.getD idx 0 := hlb _ heref_mem
            have heref_ub : out.getD idx 0 < h.next := hub _ heref_mem
            have hval : hget h (out.getD idx 0) = ps.allPOs.getD idx defaultPO := by
              have h1 := getD_map out (hget h) idx defaultPO 0 hidx
              rw [hov] at h1
              exact h1.symm
            rw [heapMergeStep_caseA h out seen ref k idx (hpo ▸ hkey) (hseen ▸ hsl),
              mergeStep_caseA ps _ k idx hkey hsl]
            refine ⟨?_, ?_, ?_, ?_, ?_, ?_, ?_, ?_⟩
            · intro r hr
              dsimp only at hr ⊢
              rw [hset_next] at hr
              have hne : r ≠ out.getD idx 0 := by omega
              rw [hset_objs_ne _ _ _ _ hne]
              exact hwfh r hr
            · dsimp only
              rw [hset_next]
              exact hnm
            · intro r hr
              dsimp only
              have hne : r ≠ out.getD idx 0 := by omega
              rw [hset_objs_ne _ _ _ _ hne]
              exact hsim.frame r hr
            · show out.map _ = _
              rw [map_hget_hset out h idx _ hsim.out_nodup hidx, hov, hval, hpo,
                modifyAt_apply_const ps.allPOs idx (fun x => mergeInto x (hget h₀ ref))
                  defaultPO hidx']
            · exact hsim.seen_eq
            · exact hlb
            · intro r hr
              dsimp only
              rw [hset_next]
              exact hub r hr
            · exact hsim.out_nodup
        | none =>
            rw [heapMergeStep_caseB h out seen ref k (hpo ▸ hkey) (hseen ▸ hsl),
              mergeStep_caseB ps _ k hkey hsl]
            refine ⟨?_, ?_, ?_, ?_, ?_, ?_, ?_, ?_⟩
            · intro r hr
              rw [halloc_next] at hr
              have hne : r ≠ h.next := by omega
              rw [halloc_objs_ne _ _ _ hne]
              exact hwfh r (by omega)
            · rw [halloc_next]
              have := hnm
              omega
            · intro r hr
              have hne : r ≠ h.next := by
                have := hnm
                omega
              rw [halloc_objs_ne _ _ _ hne]
              exact hsim.frame r hr
            · show (out ++ [h.next]).map _ = _
              rw [List.map_append, hpo]
              congr 1
              · refine Eq.trans (List.map_congr_left ?_) hsim.out_vals
                intro r hr
                exact hget_halloc_ne h _ r (by have := hub r hr; omega)
              · simp only [List.map_cons, List.map_nil]
                rw [← hpo, hget_halloc_eq]
            · show seen ++ [(k, out.length)] = _
              rw [hseen, hlen_out]
            · intro r hr
              rcases List.mem_append.mp hr with hr | hr
              · exact hlb r hr
              · have : r = h.next := by simpa using hr
                have := hnm
                omega
            · intro r hr
              rw [halloc_next]
              rcases List.mem_append.mp hr with hr | hr
              · have := hub r hr
                omega
              · have : r = h.next := by simpa using hr
                omega
            · have hnotmem : h.next ∉ out := by
                intro hmem
                have := hub _ hmem
                omega
              simp [List.nodup_append, hsim.out_nodup, hnotmem]
    | none =>
        have harts : (hget h₀ ref).articles.getD [] ≠ [] := by
          intro hcontra
          exact hskip ⟨hkey, hcontra⟩
        by_cases hemp : out = []
        · have hpemp : ps.allPOs = [] := by
            rw [← hsim.out_vals, hemp]
            rfl
          have hpemp' : ps.allPOs.isEmpty = true := by rw [hpemp]; rfl
          rw [heapMergeStep_caseC_push h out seen ref (hpo ▸ hkey) (hpo ▸ harts) hemp,
            mergeStep_caseC_push ps _ hkey harts hpemp]
          refine ⟨?_, ?_, ?_, ?_, ?_, ?_, ?_, ?_⟩
          · intro r hr
            rw [halloc_next] at hr
            have hne : r ≠ h.next := by omega
            rw [halloc_objs_ne _ _ _ hne]
            exact hwfh r (by omega)
          · rw [halloc_next]
            have := hnm
            omega
          · intro r hr
            have hne : r ≠ h.next := by
              have := hnm
              omega
            rw [halloc_objs_ne _ _ _ hne]
            exact hsim.frame r hr
          · show [h.next].map _ = _
            simp only [List.map_cons, List.map_nil]
            rw [← hpo, hget_halloc_eq]
          · exact hsim.seen_eq
          · intro r hr
            have : r = h.next := by simpa using hr
            have := hnm
            omega
          · intro r hr
            have : r = h.next := by simpa using hr
            rw [halloc_next]
            omega
          · simp
        · have hpne : ps.allPOs ≠ [] := by
            intro hcontra
            apply hemp
            have := hsim.out_vals
            rw [hcontra] at this
            exact List.map_eq_nil_iff.mp this
          have hlen_pos : 0 < out.length := List.length_pos_of_ne_nil hemp
          have hidx : out.length - 1 < out.length := by omega
          have hidx' : ps.allPOs.length - 1 < ps.allPOs.length := by omega
          have heref_mem : out.getD (out.length - 1) 0 ∈ out := getD_mem out _ 0 hidx
          have heref_lb : h₀.next ≤ out.getD (out.length - 1) 0 := hlb _ heref_mem
          have heref_ub : out.getD (out.length - 1) 0 < h.next := hub _ heref_mem
          have hval : hget h (out.getD (out.length - 1) 0) =
              ps.allPOs.getD (ps.allPOs.length - 1) defaultPO := by
            have h1 := getD_map out (hget h) (out.length - 1) defaultPO 0 hidx
            rw [hov] at h1
            rw [← h1, hlen_out]
          rw [heapMergeStep_caseC_merge h out seen ref (hpo ▸ hkey) (hpo ▸ harts) hemp,
            mergeStep_caseC_merge ps _ hkey harts hpne]
          refine ⟨?_, ?_, ?_, ?_, ?_, ?_, ?_, ?_⟩
          · intro r hr
            dsimp only at hr ⊢
            rw [hset_next] at hr
            have hne : r ≠ out.getD (out.length - 1) 0 := by omega
            rw [hset_objs_ne _ _ _ _ hne]
            exact hwfh r hr
          · dsimp only
            rw [hset_next]
            exact hnm
          · intro r hr
            dsimp only
            have hne : r ≠ out.getD (out.length - 1) 0 := by omega
            rw [hset_objs_ne _ _ _ _ hne]
            exact hsim.frame r hr
          · show out.map _ = _
            rw [map_hget_hset out h (out.length - 1) _ hsim.out_nodup hidx, hov,
              hval, hpo, hlen_out,
              modifyAt_apply_const ps.allPOs (ps.allPOs.length - 1)
                (fun x => mergeInto x (hget h₀ ref)) defaultPO hidx']
          · exact hsim.seen_eq
          · exact hlb
          · intro r hr
            dsimp only
            rw [hset_next]
            exact hub r hr
          · exact hsim.out_nodup

theorem heapMergeStep_sim' (h₀ : Heap) (hs : Heap × List Nat × List (String × Nat))
    (ps : MergeState) (ref : Nat)
    (hsim : HSim h₀ hs ps) (hinv : MergeInv ps) (href : ref < h₀.next) :
    HSim h₀ (heapMergeStep hs ref) (mergeStep ps (hget h₀ ref)) := by
  obtain ⟨h, out, seen⟩ := hs
  exact heapMergeStep_sim h₀ h out seen ps ref hsim hinv href

theorem foldl_heapMergeStep_sim (h₀ : Heap) (refs : List Nat)
    (hs : Heap × List Nat × List (String × Nat)) (ps : MergeState)
    (hsim : HSim h₀ hs ps) (hinv : MergeInv ps) (hrefs : ∀ r ∈ refs, r < h₀.next) :
    HSim h₀ (refs.foldl heapMergeStep hs) ((refs.map (hget h₀)).foldl mergeStep ps) := by
  induction refs generalizing hs ps with
  | nil => exact hsim
  | cons r rest ih =>
      simp only [List.foldl_cons, List.map_cons]
      exact ih _ _
        (heapMergeStep_sim' h₀ hs ps r hsim hinv (hrefs r (List.mem_cons_self r rest)))
        (mergeStep_inv ps _ hinv)
        (fun r' hr' => hrefs r' (List.mem_cons_of_mem r hr'))

theorem pageStep_inv (ps : MergeState) (page : PageExtractResponse) (hinv : MergeInv ps) :
    MergeInv (pageStep ps page) := by
  cases hpg : page.purchase_orders with
  | none => rw [pageStep, hpg]; exact hinv
  | some pos =>
      rw [pageStep, hpg]
      by_cases hpos : pos = []
      · simp only [if_pos hpos]; exact hinv
      · simp only [if_neg hpos]; exact foldl_mergeStep_inv pos ps hinv

theorem heapPageStep_sim (h₀ : Heap) (pg : Option (List Nat))
    (hs : Heap × List Nat × List (String × Nat)) (ps : MergeState)
    (hsim : HSim h₀ hs ps) (hinv : MergeInv ps) (hrefs : ∀ r ∈ pg.getD [], r < h₀.next) :
    HSim h₀ (heapPageStep hs pg) (pageStep ps (pageValues h₀ pg)) := by
  cases pg with
  | none => exact hsim
  | some refs =>
      by_cases hre : refs = []
      · subst hre
        exact hsim
      · have hne : refs.map (hget h₀) ≠ [] := by
          intro hcontra
          exact hre (List.map_eq_nil_iff.mp hcontra)
        rw [show heapPageStep hs (some refs) = refs.foldl heapMergeStep hs by
            simp [heapPageStep, hre],
          show pageStep ps (pageValues h₀ (some refs)) =
              (refs.map (hget h₀)).foldl mergeStep ps by
            simp [pageStep, pageValues, hne]]
        exact foldl_heapMergeStep_sim h₀ refs hs ps hsim hinv (by simpa using hrefs)

theorem foldl_heapPageStep_sim (h₀ : Heap) (pages : List (Option (List Nat)))
    (hs : Heap × List Nat × List (String × Nat)) (ps : MergeState)
    (hsim : HSim h₀ hs ps) (hinv : MergeInv ps)
    (hrefs : ∀ pg ∈ pages, ∀ r ∈ pg.getD [], r < h₀.next) :
    HSim h₀ (pages.foldl heapPageStep hs)
      ((pages.map (pageValues h₀)).foldl pageStep ps) := by
  induction pages generalizing hs ps with
  | nil => exact hsim
  | cons pg rest ih =>
      simp only [List.foldl_cons, List.map_cons]
      exact ih _ _
        (heapPageStep_sim h₀ pg hs ps hsim hinv (hrefs pg (List.mem_cons_self pg rest)))
        (pageStep_inv ps _ hinv)
        (fun pg' hpg' => hrefs pg' (List.mem_cons_of_mem pg hpg'))

theorem heapMergePageResults_sim (h₀ : Heap) (pages : List (Option (List Nat)))
    (hwf : Heap.WF h₀)
    (hrefs : ∀ pg ∈ pages, ∀ r ∈ pg.getD [], r < h₀.next) :
    HSim h₀ (heapMergePageResults h₀ pages) (mergeStateOf (pages.map (pageValues h₀))) := by
  have hinit : HSim h₀ (h₀, [], []) ⟨[], []⟩ := by
    refine ⟨hwf, Nat.le_refl _, fun r _ => rfl, rfl, rfl, ?_, ?_, ?_⟩
    · intro r hr; simp at hr
    · intro r hr; simp at hr
    · exact List.nodup_nil
  exact foldl_heapPageStep_sim h₀ pages (h₀, [], []) ⟨[], []⟩ hinit mergeInv_init hrefs

/-- Claim C7.  The merge is pure: run over the JavaScript heap it never
writes a pre-existing object — the input page list, its PO entries and
their article arrays are bit-for-bit unchanged after the call — and the
values of its output are exactly the pure function `mergePageResults` of
the values of its input, so the result is determined by the input values
alone (deterministic, independent of heap layout).  I/O freedom is direct
from the source: the function body contains no call other than list and
record operations. -/
theorem mergePageResults_pure (h₀ : Heap) (pages : List (Option (List Nat)))
    (hwf : Heap.WF h₀)
    (hrefs : ∀ pg ∈ pages, ∀ r ∈ pg.getD [], r < h₀.next) :
    (∀ r, r < h₀.next →
      (heapMergePageResults h₀ pages).1.objs r = h₀.objs r) ∧
    (heapMergePageResults h₀ pages).2.1.map (hget (heapMergePageResults h₀ pages).1) =
      mergedPOs (pages.map (pageValues h₀)) := by
  have hsim := heapMergePageResults_sim h₀ pages hwf hrefs
  refine ⟨hsim.frame, ?_⟩
  rw [mergedPOs_eq]
  exact hsim.out_vals

/-- Concrete two-object heap for the C7 witness: reference 0 holds the
Acme page entry, reference 1 the Other page entry. -/
def sampleHeap : Heap :=
  ⟨fun r => if r = 0 then some acmePO else if r = 1 then some otherPO else none, 2⟩

/-- Concrete page list for the C7 witness: one entry reference per page. -/
def samplePages : List (Option (List Nat)) := [some [0], some [1]]

/-- Witness for claim C7 at a concrete heap: after the merge both input
objects are unchanged and the output values equal the pure merge of the
input values. -/
theorem mergePageResults_pure_witness :
    Heap.WF sampleHeap ∧
    (∀ pg ∈ samplePages, ∀ r ∈ pg.getD [], r < sampleHeap.next) ∧
    (heapMergePageResults sampleHeap samplePages).1.objs 0 = sampleHeap.objs 0 ∧
    (heapMergePageResults sampleHeap samplePages).1.objs 1 = sampleHeap.objs 1 ∧
    (heapMergePageResults sampleHeap samplePages).2.1.map
        (hget (heapMergePageResults sampleHeap samplePages).1) =
      mergedPOs (samplePages.map (pageValues sampleHeap)) := by
  have hwf : Heap.WF sampleHeap := by
    intro r hr
    have h0 : r ≠ 0 := by
      intro hcontra
      rw [hcontra] at hr
      exact absurd hr (by decide)
    have h1 : r ≠ 1 := by
      intro hcontra
      rw [hcontra] at hr
      exact absurd hr (by decide)
    simp [sampleHeap, h0, h1]
  have hrefs : ∀ pg ∈ samplePages, ∀ r ∈ pg.getD [], r < sampleHeap.next := by decide
  have hmain := mergePageResults_pure sampleHeap samplePages hwf hrefs
  exact ⟨hwf, hrefs, hmain.1 0 (by decide), hmain.1 1 (by decide), hmain.2⟩

end Inward

namespace TransferIn

/-- A physical box of a loaded transfer.  The fields are the ones the
transfer-in page reads (`b.id`, `b.box_id`, `b.box_number`, `b.article`,
`b.batch_number`, `b.lot_number`, `b.transaction_no`, `b.net_weight`,
`b.gross_weight`); the numeric box id keys `boxesMatchMap`. -/
structure Box where
  id : Nat
  box_id : Option String
  box_number : Option String
  article : Option String
  batch_number : Option String
  lot_number : Option String
  transaction_no : Option String
  net_weight : Option ℚ
  gross_weight : Option ℚ
deriving DecidableEq

/-- An article line of a loaded transfer; again only the fields the page
reads. -/
structure Line where
  item_desc_raw : Option String
  item_description : Option String
  batch_number : Option String
  lot_number : Option String
  net_weight : Option ℚ
  total_weight : Option ℚ
  qty : Option ℚ
  quantity : Option ℚ
deriving DecidableEq

/-- The loaded `transferData` as far as reconciliation is concerned:
`boxes[]` and `lines[]`. -/
structure Transfer where
  boxes : List Box
  lines : List Line
deriving DecidableEq

/-- The discrepancy payload stored in `linesIssueMap[i]`:
`{ actual_qty, actual_total_weight, remarks }`. -/
structure Issue where
  actual_qty : ℚ
  actual_total_weight : ℚ
  remarks : String
deriving DecidableEq

/-- The three `useState` records driving reconciliation:
`boxesMatchMap : Record<number, boolean>` keyed by box id,
`linesMatchMap : Record<number, boolean>` keyed by line index,
`linesIssueMap : Record<number, issue>` keyed by line index.  A record is a
total function; an absent entry and an entry holding `false` are both falsy
in the source and are identified as `false` respectively `none`. -/
structure ReconState where
  boxesMatchMap : Nat → Bool
  linesMatchMap : Nat → Bool
  linesIssueMap : Nat → Option Issue

/-- The state right after a transfer is loaded: the source initialises every
box id and line index to `false` and leaves the issue record empty, which is
observationally the all-falsy state. -/
def initState : ReconState := ⟨fun _ => false, fun _ => false, fun _ => none⟩

/-- Record update at one numeric key (`map[key] = v`). -/
def updBool (m : Nat → Bool) (i : Nat) (v : Bool) : Nat → Bool :=
  fun j => if j = i then v else m j

/-- Issue-record update at one numeric key. -/
def updIssue (m : Nat → Option Issue) (i : Nat) (v : Option Issue) : Nat → Option Issue :=
  fun j => if j = i then v else m j

/-! Derived state, lines 661-671 of the transfer-in page. -/

def totalBoxes (t : Transfer) : Nat := t.boxes.length

def totalLines (t : Transfer) : Nat := t.lines.length

def totalItems (t : Transfer) : Nat := totalBoxes t + totalLines t

/-- `boxes.filter((b) => boxesMatchMap[b.id]).length` -/
def matchedBoxes (t : Transfer) (s : ReconState) : Nat :=
  (t.boxes.filter (fun b => s.boxesMatchMap b.id)).length

/-- `lines.filter((_, i) => linesMatchMap[i]).length` -/
def matchedLines (t : Transfer) (s : ReconState) : Nat :=
  (t.lines.enum.filter (fun p => s.linesMatchMap p.1)).length

/-- `lines.filter((_, i) => linesIssueMap[i]).length` -/
def issuedLines (t : Transfer) (s : ReconState) : Nat :=
  (t.lines.enum.filter (fun p => (s.linesIssueMap p.1).isSome)).length

def resolvedLines (t : Transfer) (s : ReconState) : Nat :=
  matchedLines t s + issuedLines t s

def totalMatched (t : Transfer) (s : ReconState) : Nat :=
  matchedBoxes t s + resolvedLines t s

/-- `allMatched = totalItems > 0 && totalMatched === totalItems` -/
def allMatched (t : Transfer) (s : ReconState) : Bool :=
  decide (0 < totalItems t) && decide (totalMatched t s = totalItems t)

/-- The `disabled` condition of the confirm-receipt button (line 1443):
`loading || totalItems === 0 || !allMatched`. -/
def confirmReceiptDisabled (t : Transfer) (s : ReconState) (loading : Bool) : Bool :=
  loading || decide (totalItems t = 0) || !allMatched t s

/-! The user-action handlers, lines 741-834 of the transfer-in page. -/

/-- `handleAcknowledgeBox`: set the box flag. -/
def handleAcknowledgeBox (boxId : Nat) (s : ReconState) : ReconState :=
  { s with boxesMatchMap := updBool s.boxesMatchMap boxId true }

/-- Grouping key of a box in `groupedBoxes`: `b.article || "Unknown Article"`. -/
def articleNameOf (b : Box) : String :=
  if strTruthy b.article then b.article.getD "" else "Unknown Article"

/-- `handleAcknowledgeArticleBoxes`: acknowledge every box of one article
group. -/
def handleAcknowledgeArticleBoxes (t : Transfer) (articleName : String) (s : ReconState) :
    ReconState :=
  let newMap := (t.boxes.filter (fun b => articleNameOf b = articleName)).foldl
    (fun m b => updBool m b.id true) s.boxesMatchMap
  { s with boxesMatchMap := newMap }

/-- `handleAcknowledgeLine`: set the line flag.  The issue record is not
touched. -/
def handleAcknowledgeLine (i : Nat) (s : ReconState) : ReconState :=
  { s with linesMatchMap := updBool s.linesMatchMap i true }

/-- The issue form as the source reads it: `parseFloat(issueForm.actual_qty)`
and `parseFloat(issueForm.actual_total_weight)` either produce a number or
`NaN`; `none` models the `NaN` outcome (blank or unparsable text). -/
structure IssueForm where
  actual_qty : Option ℚ
  actual_total_weight : Option ℚ
  remarks : String
deriving DecidableEq

/-- `handleSubmitIssue` (lines 773-798): if both parses are `NaN` the form
is rejected locally (`none`; the source shows a validation toast and
returns before touching any state and before any network call).  Otherwise
the issue payload is stored (with `NaN` components replaced by `0` and the
remarks trimmed) and the line is removed from `linesMatchMap`. -/
def handleSubmitIssue (i : Nat) (form : IssueForm) (s : ReconState) : Option ReconState :=
  if form.actual_qty = none ∧ form.actual_total_weight = none then none
  else some
    { s with
      linesIssueMap := updIssue s.linesIssueMap i
        (some ⟨form.actual_qty.getD 0, form.actual_total_weight.getD 0, jsTrim form.remarks⟩)
      linesMatchMap := updBool s.linesMatchMap i false }

/-- `handleAcknowledgeAll` (lines 806-816): set the flag of every box id and
every line index; the issue record is not touched. -/
def handleAcknowledgeAll (t : Transfer) (s : ReconState) : ReconState :=
  { s with
    boxesMatchMap := t.boxes.foldl (fun m b => updBool m b.id true) s.boxesMatchMap
    linesMatchMap := t.lines.enum.foldl (fun m p => updBool m p.1 true) s.linesMatchMap }

/-- `handleAcknowledgeAllLines` (lines 819-826): set the flag of every line
index that has no issue recorded (`if (!linesIssueMap[i]) newMap[i] = true`). -/
def handleAcknowledgeAllLines (t : Transfer) (s : ReconState) : ReconState :=
  let newMap := t.lines.enum.foldl
    (fun m p => if (s.linesIssueMap p.1).isSome then m else updBool m p.1 true)
    s.linesMatchMap
  { s with linesMatchMap := newMap }

/-- `handleAcknowledgeAllBoxes` (lines 829-834): set the flag of every box. -/
def handleAcknowledgeAllBoxes (t : Transfer) (s : ReconState) : ReconState :=
  { s with boxesMatchMap := t.boxes.foldl (fun m b => updBool m b.id true) s.boxesMatchMap }

/-- One user action on the reconciliation state. -/
inductive ReconAction where
  | acknowledgeBox (boxId : Nat)
  | acknowledgeArticleBoxes (articleName : String)
  | acknowledgeLine (i : Nat)
  | submitIssue (i : Nat) (form : IssueForm)
  | acknowledgeAll
  | acknowledgeAllLines
  | acknowledgeAllBoxes
deriving DecidableEq

/-- Apply one handler; a rejected issue form leaves the state unchanged
(the source returns early). -/
def applyAction (t : Transfer) (s : ReconState) : ReconAction → ReconState
  | .acknowledgeBox boxId => handleAcknowledgeBox boxId s
  | .acknowledgeArticleBoxes name => handleAcknowledgeArticleBoxes t name s
  | .acknowledgeLine i => handleAcknowledgeLine i s
  | .submitIssue i form => (handleSubmitIssue i form s).getD s
  | .acknowledgeAll => handleAcknowledgeAll t s
  | .acknowledgeAllLines => handleAcknowledgeAllLines t s
  | .acknowledgeAllBoxes => handleAcknowledgeAllBoxes t s

/-- The reconciliation state reached from transfer load by a sequence of
user actions. -/
def reconReach (t : Transfer) (acts : List ReconAction) : ReconState :=
  acts.foldl (applyAction t) initState

/-! Specification-side notion of a pending item: neither acknowledged nor
issued. -/

def boxPending (s : ReconState) (b : Box) : Bool := !s.boxesMatchMap b.id

def linePending (s : ReconState) (i : Nat) : Bool :=
  !s.linesMatchMap i && (s.linesIssueMap i).isNone

/-- Number of items (boxes and lines) still pending. -/
def pendingCount (t : Transfer) (s : ReconState) : Nat :=
  (t.boxes.filter (fun b => boxPending s b)).length +
  (t.lines.enum.filter (fun p => linePending s p.1)).length

theorem length_filter_add_length_filter_not (l : List α) (p : α → Bool) :
    (l.filter p).length + (l.filter (fun a => !p a)).length = l.length := by
  induction l with
  | nil => rfl
  | cons a tl ih =>
      cases hpa : p a <;> simp [List.filter_cons, hpa] <;> omega

theorem line_partition (l : List (Nat × Line)) (m : Nat → Bool) (im : Nat → Option Issue)
    (hd : ∀ p ∈ l, ¬(m p.1 = true ∧ (im p.1).isSome = true)) :
    (l.filter (fun p => m p.1)).length + (l.filter (fun p => (im p.1).isSome)).length +
      (l.filter (fun p => !m p.1 && (im p.1).isNone)).length = l.length := by
  induction l with
  | nil => rfl
  | cons a tl ih =>
      have hdtl : ∀ p ∈ tl, ¬(m p.1 = true ∧ (im p.1).isSome = true) :=
        fun p hp => hd p (List.mem_cons_of_mem a hp)
      have ih' := ih hdtl
      cases hm : m a.1 with
      | true =>
          cases him : im a.1 with
          | some v =>
              refine absurd ⟨hm, ?_⟩ (hd a (List.mem_cons_self a tl))
              rw [him]
              rfl
          | none =>
              simp [List.filter_cons, hm, him]
              omega
      | false =>
          cases him : im a.1 with
          | some v =>
              simp [List.filter_cons, hm, him]
              omega
          | none =>
              simp [List.filter_cons, hm, him]
              omega

/-- Claim C1, amended.  On every state in which no line is simultaneously
acknowledged and issued, the confirm-receipt action (with no request in
flight) is enabled exactly when no item is pending and the transfer has at
least one item; in particular it is disabled whenever at least one item is
pending.  Without that proviso the gate double-counts a line sitting in
both `linesMatchMap` and `linesIssueMap`, see the counterexample. -/
theorem confirmReceipt_gate_iff (t : Transfer) (s : ReconState)
    (hdisj : ∀ p ∈ t.lines.enum,
      ¬(s.linesMatchMap p.1 = true ∧ (s.linesIssueMap p.1).isSome = true)) :
    (confirmReceiptDisabled t s false = false ↔
      (pendingCount t s = 0 ∧ 0 < totalItems t)) ∧
    (0 < pendingCount t s → confirmReceiptDisabled t s false = true) := by
  have hbox := length_filter_add_length_filter_not t.boxes (fun b => s.boxesMatchMap b.id)
  have hline := line_partition t.lines.enum s.linesMatchMap s.linesIssueMap hdisj
  have h1 : matchedBoxes t s + (t.boxes.filter (fun b => boxPending s b)).length =
      totalBoxes t := by
    simpa [matchedBoxes, totalBoxes, boxPending] using hbox
  have h2 : matchedLines t s + issuedLines t s +
      (t.lines.enum.filter (fun p => linePending s p.1)).length = totalLines t := by
    simpa [matchedLines, issuedLines, totalLines, linePending, List.enum_length] using hline
  have hpc : pendingCount t s = (t.boxes.filter (fun b => boxPending s b)).length +
      (t.lines.enum.filter (fun p => linePending s p.1)).length := rfl
  have htm : totalMatched t s = matchedBoxes t s + (matchedLines t s + issuedLines t s) := rfl
  have hti : totalItems t = totalBoxes t + totalLines t := rfl
  have hiff : confirmReceiptDisabled t s false = false ↔
      (pendingCount t s = 0 ∧ 0 < totalItems t) := by
    have hgate : confirmReceiptDisabled t s false = false ↔
        (0 < totalItems t ∧ totalMatched t s = totalItems t) := by
      simp [confirmReceiptDisabled, allMatched]
      omega
    rw [hgate]
    omega
  refine ⟨hiff, ?_⟩
  intro hp
  cases hdis : confirmReceiptDisabled t s false with
  | true => rfl
  | false =>
      have := hiff.mp hdis
      omega

/-- Sample transfer of the reconciliation scenarios: one box (id 1) and one
article line. -/
def sampleBox : Box := ⟨1, none, some "B1", some "Sugar", none, none, none, some 10, some 11⟩

/-- Sample article line of the reconciliation scenarios. -/
def sampleLine : Line := ⟨some "Rice bags", none, none, none, some 1, some 25, some 10, none⟩

/-- One box plus one line. -/
def sampleTransfer : Transfer := ⟨[sampleBox], [sampleLine]⟩

/-- Issue form carrying an actual quantity of 5 and a blank weight. -/
def issueForm5 : IssueForm := ⟨some 5, none, ""⟩

/-- State reached by reporting an issue on line 0 and then pressing
Acknowledge All (both steps pass the button guards of the page). -/
def issuedThenAckAll : ReconState :=
  reconReach sampleTransfer [.submitIssue 0 issueForm5, .acknowledgeAll]

/-- Counterexample to claim C1 as stated.  The claim reads: the action is
enabled if and only if no item is pending and the item total is positive.
In the reachable state `issuedThenAckAll` no item is pending (the box and
the line are both resolved) and the transfer has two items, yet the gate is
disabled: the line is counted once as acknowledged and once as issued, so
`totalMatched = 3` never equals `totalItems = 2`. -/
theorem confirmReceipt_gate_counterexample :
    pendingCount sampleTransfer issuedThenAckAll = 0 ∧
    totalItems sampleTransfer = 2 ∧
    totalMatched sampleTransfer issuedThenAckAll = 3 ∧
    allMatched sampleTransfer issuedThenAckAll = false ∧
    confirmReceiptDisabled sampleTransfer issuedThenAckAll false = true := by
  refine ⟨by decide, by decide, by decide, by decide, by decide⟩

/-- Disjoint state for the C1 witness: line 0 issued, box 1 acknowledged. -/
def issuedThenAckBox : ReconState :=
  reconReach sampleTransfer [.submitIssue 0 issueForm5, .acknowledgeBox 1]

/-- Witness for the amended claim C1 at a concrete disjoint state: nothing
is pending, the transfer is nonempty, and the gate is enabled. -/
theorem confirmReceipt_gate_iff_witness :
    (∀ p ∈ sampleTransfer.lines.enum,
      ¬(issuedThenAckBox.linesMatchMap p.1 = true ∧
        (issuedThenAckBox.linesIssueMap p.1).isSome = true)) ∧
    (confirmReceiptDisabled sampleTransfer issuedThenAckBox false = false ↔
      (pendingCount sampleTransfer issuedThenAckBox = 0 ∧ 0 < totalItems sampleTransfer)) :=
  ⟨by decide, (confirmReceipt_gate_iff sampleTransfer issuedThenAckBox (by decide)).1⟩

/-- Claim C2 (code bug).  After the reachable action sequence report-issue
then Acknowledge All, line 0 is simultaneously acknowledged
(`linesMatchMap[0] = true`) and still carries its issue payload: the state
holds both payload shapes at once.  `handleAcknowledgeAll` (and the single
`handleAcknowledgeLine`) set the acknowledged flag without clearing
`linesIssueMap`, although the sibling `handleAcknowledgeAllLines`
deliberately skips issued lines and the gate arithmetic
(`totalMatched === totalItems`) assumes the two records are disjoint. -/
theorem acknowledged_and_issued_simultaneously :
    issuedThenAckAll.linesMatchMap 0 = true ∧
    issuedThenAckAll.linesIssueMap 0 = some ⟨5, 0, ""⟩ := by
  refine ⟨by decide, by decide⟩

theorem foldl_updBool_box (boxes : List Box) (m : Nat → Bool) (x : Nat) :
    (boxes.foldl (fun m b => updBool m b.id true) m) x =
      if ∃ b ∈ boxes, b.id = x then true else m x := by
  induction boxes generalizing m with
  | nil => simp
  | cons b rest ih =>
      rw [List.foldl_cons, ih]
      by_cases hbx : b.id = x
      · have hex : ∃ b' ∈ b :: rest, b'.id = x := ⟨b, List.mem_cons_self b rest, hbx⟩
        rw [if_pos hex]
        by_cases hx : ∃ b' ∈ rest, b'.id = x
        · rw [if_pos hx]
        · rw [if_neg hx]
          simp [updBool, hbx.symm]
      · have hiff : (∃ b' ∈ b :: rest, b'.id = x) ↔ (∃ b' ∈ rest, b'.id = x) := by
          constructor
          · rintro ⟨b', hb', he⟩
            rcases List.mem_cons.mp hb' with rfl | hmem
            · exact absurd he hbx
            · exact ⟨b', hmem, he⟩
          · rintro ⟨b', hmem, he⟩
            exact ⟨b', List.mem_cons_of_mem b hmem, he⟩
        rw [if_congr hiff rfl rfl]
        have hxb : ¬ x = b.id := fun h => hbx h.symm
        by_cases hx : ∃ b' ∈ rest, b'.id = x
        · simp [hx]
        · simp [hx, updBool, hxb]

theorem foldl_updBool_idx (l : List (Nat × Line)) (m : Nat → Bool) (x : Nat) :
    (l.foldl (fun m p => updBool m p.1 true) m) x =
      if ∃ p ∈ l, p.1 = x then true else m x := by
  induction l generalizing m with
  | nil => simp
  | cons a rest ih =>
      rw [List.foldl_cons, ih]
      by_cases hax : a.1 = x
      · have hex : ∃ p ∈ a :: rest, p.1 = x := ⟨a, List.mem_cons_self a rest, hax⟩
        rw [if_pos hex]
        by_cases hx : ∃ p ∈ rest, p.1 = x
        · rw [if_pos hx]
        · rw [if_neg hx]
          simp [updBool, hax.symm]
      · have hiff : (∃ p ∈ a :: rest, p.1 = x) ↔ (∃ p ∈ rest, p.1 = x) := by
          constructor
          · rintro ⟨p, hp, he⟩
            rcases List.mem_cons.mp hp with rfl | hmem
            · exact absurd he hax
            · exact ⟨p, hmem, he⟩
          · rintro ⟨p, hmem, he⟩
            exact ⟨p, List.mem_cons_of_mem a hmem, he⟩
        rw [if_congr hiff rfl rfl]
        have hxa : ¬ x = a.1 := fun h => hax h.symm
        by_cases hx : ∃ p ∈ rest, p.1 = x
        · simp [hx]
        · simp [hx, updBool, hxa]

theorem foldl_updBool_skip (l : List (Nat × Line)) (im : Nat → Option Issue) (m : Nat → Bool)
    (x : Nat) :
    (l.foldl (fun m p => if (im p.1).isSome then m else updBool m p.1 true) m) x =
      if ∃ p ∈ l, p.1 = x ∧ (im x).isSome = false then true else m x := by
  induction l generalizing m with
  | nil => simp
  | cons a rest ih =>
      rw [List.foldl_cons, ih]
      by_cases hax : a.1 = x ∧ (im x).isSome = false
      · have hex : ∃ p ∈ a :: rest, p.1 = x ∧ (im x).isSome = false :=
          ⟨a, List.mem_cons_self a rest, hax⟩
        rw [if_pos hex]
        by_cases hx : ∃ p ∈ rest, p.1 = x ∧ (im x).isSome = false
        · rw [if_pos hx]
        · rw [if_neg hx]
          have hc : (im a.1).isSome = false := by rw [hax.1]; exact hax.2
          simp [hc, updBool, hax.1.symm]
      · have hiff : (∃ p ∈ a :: rest, p.1 = x ∧ (im x).isSome = false) ↔
            (∃ p ∈ rest, p.1 = x ∧ (im x).isSome = false) := by
          constructor
          · rintro ⟨p, hp, he⟩
            rcases List.mem_cons.mp hp with rfl | hmem
            · exact absurd he hax
            · exact ⟨p, hmem, he⟩
          · rintro ⟨p, hmem, he⟩
            exact ⟨p, List.mem_cons_of_mem a hmem, he⟩
        rw [if_congr hiff rfl rfl]
        by_cases hx : ∃ p ∈ rest, p.1 = x ∧ (im x).isSome = false
        · rw [if_pos hx, if_pos hx]
        · cases hsome : (im a.1).isSome with
          | true => simp [hx, hsome]
          | false =>
              have hxa : ¬ x = a.1 := by
                intro h
                exact hax ⟨h.symm, by rw [h]; exact hsome⟩
              simp [hx, hsome, updBool, hxa]

/-- Claim C3, amended.  `handleAcknowledgeAll` sets the acknowledged flag of
every box and of every line regardless of prior state — issue payloads are
preserved, but an already-Issued line is not left untouched: it additionally
becomes acknowledged.  The scoped variants do follow the claimed rule:
`handleAcknowledgeAllLines` acknowledges exactly the lines without an issue
(issued lines are left untouched) and `handleAcknowledgeAllBoxes`
acknowledges every box, neither touching any other record. -/
theorem acknowledgeAll_bulk_behavior (t : Transfer) (s : ReconState) :
    ((handleAcknowledgeAll t s).linesIssueMap = s.linesIssueMap ∧
     (∀ b ∈ t.boxes, (handleAcknowledgeAll t s).boxesMatchMap b.id = true) ∧
     (∀ p ∈ t.lines.enum, (handleAcknowledgeAll t s).linesMatchMap p.1 = true)) ∧
    ((handleAcknowledgeAllLines t s).linesIssueMap = s.linesIssueMap ∧
     (handleAcknowledgeAllLines t s).boxesMatchMap = s.boxesMatchMap ∧
     (∀ p ∈ t.lines.enum, (s.linesIssueMap p.1).isSome = true →
       (handleAcknowledgeAllLines t s).linesMatchMap p.1 = s.linesMatchMap p.1) ∧
     (∀ p ∈ t.lines.enum, (s.linesIssueMap p.1).isSome = false →
       (handleAcknowledgeAllLines t s).linesMatchMap p.1 = true)) ∧
    ((handleAcknowledgeAllBoxes t s).linesIssueMap = s.linesIssueMap ∧
     (handleAcknowledgeAllBoxes t s).linesMatchMap = s.linesMatchMap ∧
     (∀ b ∈ t.boxes, (handleAcknowledgeAllBoxes t s).boxesMatchMap b.id = true)) := by
  refine ⟨⟨rfl, ?_, ?_⟩, ⟨rfl, rfl, ?_, ?_⟩, ⟨rfl, rfl, ?_⟩⟩
  · intro b hb
    show (t.boxes.foldl (fun m b => updBool m b.id true) s.boxesMatchMap) b.id = true
    rw [foldl_updBool_box]
    exact if_pos ⟨b, hb, rfl⟩
  · intro p hp
    show (t.lines.enum.foldl (fun m p => updBool m p.1 true) s.linesMatchMap) p.1 = true
    rw [foldl_updBool_idx]
    exact if_pos ⟨p, hp, rfl⟩
  · intro p hp hsome
    show (t.lines.enum.foldl
        (fun m q => if (s.linesIssueMap q.1).isSome then m else updBool m q.1 true)
        s.linesMatchMap) p.1 = s.linesMatchMap p.1
    rw [foldl_updBool_skip]
    refine if_neg ?_
    rintro ⟨q, -, -, hfalse⟩
    rw [hsome] at hfalse
    cases hfalse
  · intro p hp hnone
    show (t.lines.enum.foldl
        (fun m q => if (s.linesIssueMap q.1).isSome then m else updBool m q.1 true)
        s.linesMatchMap) p.1 = true
    rw [foldl_updBool_skip]
    exact if_pos ⟨p, hp, rfl, hnone⟩
  · intro b hb
    show (t.boxes.foldl (fun m b => updBool m b.id true) s.boxesMatchMap) b.id = true
    rw [foldl_updBool_box]
    exact if_pos ⟨b, hb, rfl⟩

/-- State with an issue recorded on line 0 and nothing else. -/
def issuedOnly : ReconState := reconReach sampleTransfer [.submitIssue 0 issueForm5]

/-- Counterexample to claim C3 as stated.  The claim reads: acknowledge-all
applies the Acknowledged transition to every currently-Pending item and
leaves items already Issued untouched.  On a state whose line 0 is Issued
(hence not Pending), `handleAcknowledgeAll` sets the acknowledged flag of
line 0 — the issued item is modified — while the scoped
`handleAcknowledgeAllLines` indeed leaves it untouched. -/
theorem handleAcknowledgeAll_counterexample :
    (issuedOnly.linesIssueMap 0).isSome = true ∧
    issuedOnly.linesMatchMap 0 = false ∧
    (handleAcknowledgeAll sampleTransfer issuedOnly).linesMatchMap 0 = true ∧
    (handleAcknowledgeAllLines sampleTransfer issuedOnly).linesMatchMap 0 = false := by
  refine ⟨by decide, by decide, by decide, by decide⟩

/-- Witness for the amended claim C3 at a concrete state: line 0 is issued;
acknowledge-all flags it anyway while preserving its payload, and the
all-lines variant leaves it untouched. -/
theorem acknowledgeAll_bulk_behavior_witness :
    ((0, sampleLine) ∈ sampleTransfer.lines.enum ∧
      (issuedOnly.linesIssueMap 0).isSome = true) ∧
    (handleAcknowledgeAllLines sampleTransfer issuedOnly).linesMatchMap 0 =
      issuedOnly.linesMatchMap 0 ∧
    (handleAcknowledgeAll sampleTransfer issuedOnly).linesMatchMap 0 = true ∧
    (handleAcknowledgeAll sampleTransfer issuedOnly).linesIssueMap =
      issuedOnly.linesIssueMap :=
  ⟨⟨by decide, by decide⟩,
   (acknowledgeAll_bulk_behavior sampleTransfer issuedOnly).2.1.2.2.1 (0, sampleLine)
     (by decide) (by decide),
   (acknowledgeAll_bulk_behavior sampleTransfer issuedOnly).1.2.2 (0, sampleLine) (by decide),
   (acknowledgeAll_bulk_behavior sampleTransfer issuedOnly).1.1⟩

/-! The confirm-receipt submission payload, `handleConfirmReceipt`
lines 847-901 of the transfer-in page. -/

/-- The `issue` object of an issued pseudo-box record; `remarks` is
`remarks || null`. -/
structure IssueOut where
  actual_qty : ℚ
  actual_total_weight : ℚ
  remarks : Option String
deriving DecidableEq

/-- One record of the `scanned_boxes` list sent to `createTransferIn`.  The
matched-box object literal of the source carries no `issue` key, which is
modelled as `none`. -/
structure ScannedBox where
  box_number : String
  transfer_out_box_id : Option Nat
  article : Option String
  batch_number : Option String
  lot_number : Option String
  transaction_no : Option String
  net_weight : Option ℚ
  gross_weight : Option ℚ
  is_matched : Bool
  issue : Option IssueOut
deriving DecidableEq

/-- `String(b.box_id || b.box_number || b.id || "")`. -/
def boxNumberString (b : Box) : String :=
  if strTruthy b.box_id then b.box_id.getD ""
  else if strTruthy b.box_number then b.box_number.getD ""
  else if b.id ≠ 0 then toString b.id
  else ""

/-- `v ? String(v) : null` for an optional string field. -/
def orNull (v : Option String) : Option String := if strTruthy v then v else none

/-- `v ? Number(v) : null` for an optional numeric field. -/
def numOrNull (v : Option ℚ) : Option ℚ := if numTruthy v then v else none

/-- `remarks || null`. -/
def remarksOrNull (r : String) : Option String := if r = "" then none else some r

/-- `line.item_desc_raw || line.item_description || ""`. -/
def lineArticleName (line : Line) : String :=
  if strTruthy line.item_desc_raw then line.item_desc_raw.getD ""
  else if strTruthy line.item_description then line.item_description.getD ""
  else ""

/-- The record built for one acknowledged box (lines 847-859). -/
def scannedBoxRecord (b : Box) : ScannedBox :=
  { box_number := boxNumberString b
    transfer_out_box_id := some b.id
    article := orNull b.article
    batch_number := orNull b.batch_number
    lot_number := orNull b.lot_number
    transaction_no := orNull b.transaction_no
    net_weight := numOrNull b.net_weight
    gross_weight := numOrNull b.gross_weight
    is_matched := true
    issue := none }

/-- The pseudo-box record built for one acknowledged article line
(lines 862-876); the synthetic identifier is `ART-` followed by the 1-based
line position. -/
def acknowledgedArticleRecord (line : Line) (i : Nat) : ScannedBox :=
  { box_number := "ART-" ++ toString (i + 1)
    transfer_out_box_id := none
    article := some (lineArticleName line)
    batch_number := orNull line.batch_number
    lot_number := orNull line.lot_number
    transaction_no := none
    net_weight := numOrNull line.net_weight
    gross_weight := numOrNull line.total_weight
    is_matched := true
    issue := none }

/-- The pseudo-box record built for one issued article line
(lines 879-897): `is_matched` is `false` and the discrepancy payload rides
in `issue`. -/
def issuedArticleRecord (line : Line) (i : Nat) (pay : Issue) : ScannedBox :=
  { box_number := "ART-" ++ toString (i + 1)
    transfer_out_box_id := none
    article := some (lineArticleName line)
    batch_number := orNull line.batch_number
    lot_number := orNull line.lot_number
    transaction_no := none
    net_weight := numOrNull line.net_weight
    gross_weight := numOrNull line.total_weight
    is_matched := false
    issue := some ⟨pay.actual_qty, pay.actual_total_weight, remarksOrNull pay.remarks⟩ }

/-- `scannedBoxes`: every box whose flag is set, as a matched record. -/
def scannedBoxes (t : Transfer) (s : ReconState) : List ScannedBox :=
  (t.boxes.filter (fun b => s.boxesMatchMap b.id)).map scannedBoxRecord

/-- `acknowledgedArticles`: every acknowledged line as a matched pseudo-box. -/
def acknowledgedArticles (t : Transfer) (s : ReconState) : List ScannedBox :=
  (t.lines.enum.filter (fun p => s.linesMatchMap p.1)).map
    (fun p => acknowledgedArticleRecord p.2 p.1)

/-- `issuedArticles`: every issued line as an unmatched pseudo-box carrying
its payload (the source reads `linesIssueMap[i]`, present by the filter). -/
def issuedArticles (t : Transfer) (s : ReconState) : List ScannedBox :=
  (t.lines.enum.filter (fun p => (s.linesIssueMap p.1).isSome)).map
    (fun p => issuedArticleRecord p.2 p.1 ((s.linesIssueMap p.1).getD ⟨0, 0, ""⟩))

/-- `allScannedBoxes = [...scannedBoxes, ...articleEntries]` with
`articleEntries = [...acknowledgedArticles, ...issuedArticles]`: the one
flat list sent as `scanned_boxes` in the single `createTransferIn` call. -/
def allScannedBoxes (t : Transfer) (s : ReconState) : List ScannedBox :=
  scannedBoxes t s ++ (acknowledgedArticles t s ++ issuedArticles t s)

/-- Claim C8.  On confirm the submission is one flat list: every
acknowledged box contributes a matched-box record, every acknowledged line
a matched pseudo-box and every issued line an unmatched pseudo-box whose
identifier is `ART-` followed by its 1-based position and whose `issue`
carries the discrepancy payload; the list length is exactly the sum of the
three counts. -/
theorem handleConfirmReceipt_payload (t : Transfer) (s : ReconState) :
    (allScannedBoxes t s).length =
      matchedBoxes t s + matchedLines t s + issuedLines t s ∧
    (∀ b ∈ t.boxes, s.boxesMatchMap b.id = true →
      scannedBoxRecord b ∈ allScannedBoxes t s ∧
      (scannedBoxRecord b).is_matched = true ∧ (scannedBoxRecord b).issue = none) ∧
    (∀ p ∈ t.lines.enum, s.linesMatchMap p.1 = true →
      acknowledgedArticleRecord p.2 p.1 ∈ allScannedBoxes t s ∧
      (acknowledgedArticleRecord p.2 p.1).box_number = "ART-" ++ toString (p.1 + 1) ∧
      (acknowledgedArticleRecord p.2 p.1).is_matched = true ∧
      (acknowledgedArticleRecord p.2 p.1).issue = none) ∧
    (∀ p ∈ t.lines.enum, ∀ pay, s.linesIssueMap p.1 = some pay →
      issuedArticleRecord p.2 p.1 pay ∈ allScannedBoxes t s ∧
      (issuedArticleRecord p.2 p.1 pay).box_number = "ART-" ++ toString (p.1 + 1) ∧
      (issuedArticleRecord p.2 p.1 pay).is_matched = false ∧
      (issuedArticleRecord p.2 p.1 pay).issue =
        some ⟨pay.actual_qty, pay.actual_total_weight, remarksOrNull pay.remarks⟩) := by
  refine ⟨?_, ?_, ?_, ?_⟩
  · simp only [allScannedBoxes, scannedBoxes, acknowledgedArticles, issuedArticles,
      matchedBoxes, matchedLines, issuedLines, List.length_append, List.length_map]
    omega
  · intro b hb hflag
    refine ⟨?_, rfl, rfl⟩
    apply List.mem_append_left
    exact List.mem_map_of_mem scannedBoxRecord (List.mem_filter.mpr ⟨hb, hflag⟩)
  · intro p hp hflag
    refine ⟨?_, rfl, rfl, rfl⟩
    apply List.mem_append_right
    apply List.mem_append_left
    exact List.mem_map_of_mem _ (List.mem_filter.mpr ⟨hp, hflag⟩)
  · intro p hp pay hpay
    refine ⟨?_, rfl, rfl, rfl⟩
    apply List.mem_append_right
    apply List.mem_append_right
    have hmem : p ∈ t.lines.enum.filter (fun q => (s.linesIssueMap q.1).isSome) :=
      List.mem_filter.mpr ⟨hp, by rw [hpay]; rfl⟩
    have hthis := List.mem_map_of_mem
      (fun q => issuedArticleRecord q.2 q.1 ((s.linesIssueMap q.1).getD ⟨0, 0, ""⟩)) hmem
    simp only [hpay, Option.getD_some] at hthis
    exact hthis

/-- Two-box transfer for the C8 witness. -/
def c8Box1 : Box := ⟨1, none, some "B1", some "Sugar", none, none, none, some 10, some 11⟩

/-- Second box of the C8 witness. -/
def c8Box2 : Box := ⟨2, none, some "B2", some "Sugar", none, none, none, some 10, some 11⟩

/-- Transfer of the C8 witness scenario: two boxes and one article line. -/
def c8Transfer : Transfer := ⟨[c8Box1, c8Box2], [sampleLine]⟩

/-- State of the C8 witness scenario: both boxes acknowledged and an issue
with actual quantity 5, actual weight 0 and empty remarks on the line. -/
def c8State : ReconState :=
  reconReach c8Transfer
    [.acknowledgeBox 1, .acknowledgeBox 2, .submitIssue 0 ⟨some 5, some 0, ""⟩]

/-- Witness for claim C8 at the spec scenario: the payload holds 2 matched
box records plus 1 issued pseudo-box record with `is_matched = false` and
the stored discrepancy payload, as one flat list of length 3. -/
theorem handleConfirmReceipt_payload_witness :
    ((0, sampleLine) ∈ c8Transfer.lines.enum ∧
      c8State.linesIssueMap 0 = some ⟨5, 0, ""⟩ ∧
      c8State.boxesMatchMap 1 = true ∧ c8State.boxesMatchMap 2 = true) ∧
    (allScannedBoxes c8Transfer c8State).length = 3 ∧
    (allScannedBoxes c8Transfer c8State).map (fun r => r.is_matched) =
      [true, true, false] ∧
    (allScannedBoxes c8Transfer c8State).map (fun r => r.box_number) =
      ["B1", "B2", "ART-1"] ∧
    issuedArticleRecord sampleLine 0 ⟨5, 0, ""⟩ ∈ allScannedBoxes c8Transfer c8State ∧
    (issuedArticleRecord sampleLine 0 ⟨5, 0, ""⟩).is_matched = false ∧
    (issuedArticleRecord sampleLine 0 ⟨5, 0, ""⟩).issue = some ⟨5, 0, none⟩ :=
  ⟨⟨by decide, by decide, by decide, by decide⟩,
   by decide, by decide, by decide,
   ((handleConfirmReceipt_payload c8Transfer c8State).2.2.2 (0, sampleLine) (by decide)
     ⟨5, 0, ""⟩ (by decide)).1,
   by decide, by decide⟩

/-- Claim C9.  When neither form field parses as a number, the submission
is rejected locally (`handleSubmitIssue` returns `none`, the source shows a
validation toast and returns before any network call): the reconciliation
state is completely unchanged, so the acknowledged and issued records keep
their values and a pending item remains pending. -/
theorem handleSubmitIssue_rejects_blank (i : Nat) (form : IssueForm) (s : ReconState)
    (hq : form.actual_qty = none) (hw : form.actual_total_weight = none) :
    handleSubmitIssue i form s = none ∧
    (∀ t, applyAction t s (.submitIssue i form) = s) := by
  constructor
  · simp [handleSubmitIssue, hq, hw]
  · intro t
    simp [applyAction, handleSubmitIssue, hq, hw]

/-- Entirely blank issue form. -/
def blankForm : IssueForm := ⟨none, none, ""⟩

/-- Witness for claim C9 at the spec scenario: a blank form against the
freshly loaded sample transfer is rejected, the state stays the initial
one, and line 0 remains pending. -/
theorem handleSubmitIssue_rejects_blank_witness :
    blankForm.actual_qty = none ∧
    blankForm.actual_total_weight = none ∧
    handleSubmitIssue 0 blankForm initState = none ∧
    applyAction sampleTransfer initState (.submitIssue 0 blankForm) = initState ∧
    linePending initState 0 = true :=
  ⟨rfl, rfl,
   (handleSubmitIssue_rejects_blank 0 blankForm initState rfl rfl).1,
   (handleSubmitIssue_rejects_blank 0 blankForm initState rfl rfl).2 sampleTransfer,
   by decide⟩

/-! The transfer-number QR scanner, `handleTransferQRScan` lines 725-738. -/

/-- Abstraction of `JSON.parse(decodedText)` restricted to what the handler
inspects: either the text is not valid JSON (`failure`, the parse throws),
or it parses and the two keys `transfer_no` and `challan_no` hold the given
optional string values (`none` models an absent key; the QR payload
contract of the page carries the transfer number as a string). -/
inductive ParsedQR where
  | failure : ParsedQR
  | object (transfer_no challan_no : Option String) : ParsedQR
deriving DecidableEq

/-- The transfer number the handler uses, lines 725-738: on a parsed object
the first truthy of `qrData.transfer_no`, `qrData.challan_no` wins
(`qrData.transfer_no || qrData.challan_no`); in every other case — parse
failure, both keys absent or falsy — the raw scanned text is used.  The
handler then always calls `loadTransferDetails` with this value. -/
def handleTransferQRScan (raw : String) (p : ParsedQR) : String :=
  match p with
  | .failure => raw
  | .object t c =>
      if strTruthy t then t.getD ""
      else if strTruthy c then c.getD ""
      else raw

/-- Claim-side reading of the scan rule, key-presence based: a JSON object
containing `transfer_no` (or, failing that, `challan_no`) supplies that
value; otherwise the raw text is used. -/
def claimScanTransferNo (raw : String) (p : ParsedQR) : String :=
  match p with
  | .failure => raw
  | .object t c =>
      match t with
      | some v => v
      | none =>
          match c with
          | some v => v
          | none => raw

/-- The guard of `loadTransferDetails` (lines 686-690): the lookup request
is issued exactly when the trimmed transfer number is nonempty; a blank
number only shows an error toast. -/
def lookupAttempted (transferNo : String) : Bool := !(jsTrim transferNo == "")

/-- Counterexample to claim C10 as stated.  The claim reads: if the text
parses as JSON containing `transfer_no` or `challan_no`, that value is used
as the transfer number.  A scanned object whose `transfer_no` is present
but empty refutes it: the claim picks the empty value, while the handler
treats the empty string as falsy and falls back to the raw text. -/
theorem handleTransferQRScan_counterexample :
    handleTransferQRScan "RAW-TEXT" (.object (some "") none) = "RAW-TEXT" ∧
    claimScanTransferNo "RAW-TEXT" (.object (some "") none) = "" ∧
    handleTransferQRScan "RAW-TEXT" (.object (some "") none) ≠
      claimScanTransferNo "RAW-TEXT" (.object (some "") none) := by
  refine ⟨by decide, by decide, by decide⟩

/-- Claim C10, amended.  The handler uses the first truthy of `transfer_no`
and `challan_no` when the text parses as JSON, and the raw text in every
other case — including valid JSON with both keys absent or falsy; it agrees
with the key-presence reading whenever no present key holds the empty
string.  No scan is rejected as unrecognised: a lookup is attempted for
every scan whose resulting transfer number is nonblank after trimming. -/
theorem handleTransferQRScan_behavior (raw : String) (p : ParsedQR) :
    (p = .failure → handleTransferQRScan raw p = raw) ∧
    (∀ t c, p = .object t c → strTruthy t = true →
      handleTransferQRScan raw p = t.getD "") ∧
    (∀ t c, p = .object t c → strTruthy t = false → strTruthy c = true →
      handleTransferQRScan raw p = c.getD "") ∧
    (∀ t c, p = .object t c → strTruthy t = false → strTruthy c = false →
      handleTransferQRScan raw p = raw) ∧
    (∀ t c, p = .object t c → t ≠ some "" → c ≠ some "" →
      handleTransferQRScan raw p = claimScanTransferNo raw p) ∧
    (lookupAttempted (handleTransferQRScan raw p) = true ↔
      jsTrim (handleTransferQRScan raw p) ≠ "") := by
  refine ⟨?_, ?_, ?_, ?_, ?_, ?_⟩
  · intro hp
    subst hp
    rfl
  · intro t c hp ht
    subst hp
    simp [handleTransferQRScan, ht]
  · intro t c hp ht hc
    subst hp
    simp [handleTransferQRScan, ht, hc]
  · intro t c hp ht hc
    subst hp
    simp [handleTransferQRScan, ht, hc]
  · intro t c hp htne hcne
    subst hp
    cases t with
    | some v =>
        have hv : v ≠ "" := fun h => htne (by rw [h])
        simp [handleTransferQRScan, claimScanTransferNo, strTruthy, hv]
    | none =>
        cases c with
        | some w =>
            have hw : w ≠ "" := fun h => hcne (by rw [h])
            simp [handleTransferQRScan, claimScanTransferNo, strTruthy, hw]
        | none =>
            simp [handleTransferQRScan, claimScanTransferNo, strTruthy]
  · simp [lookupAttempted]

/-- Witness for the amended claim C10 at concrete scans: a JSON object with
only a challan number loads that number, and a nonblank result yields a
lookup. -/
theorem handleTransferQRScan_behavior_witness :
    ((.object none (some "CH-77") : ParsedQR) = .object none (some "CH-77") ∧
      strTruthy (none : Option String) = false ∧ strTruthy (some "CH-77") = true) ∧
    handleTransferQRScan "ignored-raw" (.object none (some "CH-77")) =
      (some "CH-77").getD "" ∧
    (lookupAttempted (handleTransferQRScan "ignored-raw" (.object none (some "CH-77"))) =
        true ↔
      jsTrim (handleTransferQRScan "ignored-raw" (.object none (some "CH-77"))) ≠ "") ∧
    lookupAttempted "CH-77" = true :=
  ⟨⟨rfl, rfl, by decide⟩,
   (handleTransferQRScan_behavior "ignored-raw" (.object none (some "CH-77"))).2.2.1
     none (some "CH-77") rfl rfl (by decide),
   (handleTransferQRScan_behavior "ignored-raw" (.object none (some "CH-77"))).2.2.2.2.2,
   by decide⟩

end TransferIn

end Frontend
